import Mathlib

/-!
Verification development for the Studdy-buddy-ai repository
(src/study_buddy_agent.py and src/streamlit_app.py).

The development shallowly embeds the parts of the program the claims are
about:

* a model of the Python `json` module (`json.dumps` / `json.loads`) on a
  JSON value type, faithful to CPython defaults: `dumps` uses the default
  separators (comma-space and colon-space) and `ensure_ascii=True`
  escaping, including surrogate-pair escapes for astral characters;
  `loads` is a strict recursive-descent reader.  Numbers are modeled as
  integers (the program never serializes floats), and strings that would
  decode to lone UTF-16 surrogates are rejected (Lean characters are
  Unicode scalar values).  Duplicate object keys are resolved as CPython
  dicts resolve them: first occurrence keeps its position, last value wins.
* the SQLite-backed `StudyBuddyDB` store as explicit state on row lists,
  with `CURRENT_TIMESTAMP` modeled as a strictly increasing logical clock
  and `AUTOINCREMENT` as per-table counters.
* the tool functions the claims mention (`check_quiz_answer`) and the
  agent control loop shared by `main` (study_buddy_agent.py) and
  `run_conversation` (streamlit_app.py), with the completion provider
  modeled as a script of response bodies and the tool registry as an
  association list of string-valued functions (spec section 6 treats both
  as external collaborators).
-/

set_option linter.unusedVariables false

/-! ## JSON values -/

mutual

inductive Json where
  | null : Json
  | bool (b : Bool) : Json
  | num (n : Int) : Json
  | str (s : String) : Json
  | arr (xs : JsonArr) : Json
  | obj (fs : JsonObj) : Json
deriving DecidableEq

inductive JsonArr where
  | nil : JsonArr
  | cons (hd : Json) (tl : JsonArr) : JsonArr
deriving DecidableEq

inductive JsonObj where
  | nil : JsonObj
  | cons (key : String) (val : Json) (tl : JsonObj) : JsonObj
deriving DecidableEq

end

/-! ## Serialization: Python json.dumps with default options -/

/-- Lowercase hex digit, also used as decimal digit for d < 10. -/
def hexChar (d : Nat) : Char :=
  if d < 10 then Char.ofNat (48 + d) else Char.ofNat (87 + d)

/-- A \uXXXX escape (lowercase hex), as emitted by CPython json. -/
def uEsc (n : Nat) : List Char :=
  ['\\', 'u', hexChar (n / 4096 % 16), hexChar (n / 256 % 16),
   hexChar (n / 16 % 16), hexChar (n % 16)]

/-- Escape one character the way CPython json.dumps (ensure_ascii=True)
does: short escapes for quote, backslash and common control characters,
\uXXXX for other control and non-ASCII characters, surrogate pairs for
characters above the basic multilingual plane. -/
def escapeChar (c : Char) : List Char :=
  if c = '"' then ['\\', '"']
  else if c = '\\' then ['\\', '\\']
  else if c = '\n' then ['\\', 'n']
  else if c = '\r' then ['\\', 'r']
  else if c = '\t' then ['\\', 't']
  else if c.toNat = 8 then ['\\', 'b']
  else if c.toNat = 12 then ['\\', 'f']
  else if c.toNat < 32 then uEsc c.toNat
  else if c.toNat < 127 then [c]
  else if c.toNat < 65536 then uEsc c.toNat
  else uEsc (55296 + (c.toNat - 65536) / 1024) ++ uEsc (56320 + (c.toNat - 65536) % 1024)

/-- Escaped characters of a string, without the surrounding quotes. -/
def escList (cs : List Char) : List Char :=
  List.foldr (fun c acc => escapeChar c ++ acc) [] cs

/-- A serialized JSON string literal, quotes included. -/
def escapeString (s : String) : List Char :=
  '"' :: escList s.data ++ ['"']

/-- Decimal digits of a natural number; fuel-based so that it reduces in
the kernel (fuel n + 1 always suffices). -/
def natCharsAux : Nat → Nat → List Char
  | 0, _ => []
  | f + 1, n => if n < 10 then [hexChar n] else natCharsAux f (n / 10) ++ [hexChar (n % 10)]

def natToChars (n : Nat) : List Char := natCharsAux (n + 1) n

/-- Decimal representation of an integer, as printed by CPython. -/
def intToChars (n : Int) : List Char :=
  if n < 0 then '-' :: natToChars n.natAbs else natToChars n.toNat

mutual

def dumpVal : Json → List Char
  | .null => ['n', 'u', 'l', 'l']
  | .bool true => 't' :: ['r', 'u', 'e']
  | .bool false => ['f', 'a', 'l', 's', 'e']
  | .num n => intToChars n
  | .str s => escapeString s
  | .arr xs => '[' :: (dumpElems xs ++ [']'])
  | .obj fs => '{' :: (dumpMembers fs ++ ['}'])

def dumpElems : JsonArr → List Char
  | .nil => []
  | .cons x .nil => dumpVal x
  | .cons x (.cons y tl) => dumpVal x ++ (',' :: ' ' :: dumpElems (.cons y tl))

def dumpMembers : JsonObj → List Char
  | .nil => []
  | .cons k v .nil => escapeString k ++ (':' :: ' ' :: dumpVal v)
  | .cons k v (.cons k2 v2 tl) =>
      escapeString k ++ (':' :: ' ' :: dumpVal v) ++ (',' :: ' ' :: dumpMembers (.cons k2 v2 tl))

end

/-- Python json.dumps with default arguments. -/
def jsonDumps (j : Json) : String := String.mk (dumpVal j)

/-! ## Parsing: Python json.loads -/

def isJsonWs (c : Char) : Bool :=
  c = ' ' || c = '\t' || c = '\n' || c = '\r'

def skipWs : List Char → List Char
  | [] => []
  | c :: cs => if isJsonWs c then skipWs cs else c :: cs

def hexOk (c : Char) : Bool :=
  (48 ≤ c.toNat && c.toNat ≤ 57) || (97 ≤ c.toNat && c.toNat ≤ 102) ||
    (65 ≤ c.toNat && c.toNat ≤ 70)

def hexNum (c : Char) : Nat :=
  if c.toNat ≤ 57 then c.toNat - 48 else if 97 ≤ c.toNat then c.toNat - 87 else c.toNat - 55

def hex4 (a b c d : Char) : Nat :=
  hexNum a * 4096 + hexNum b * 256 + hexNum c * 16 + hexNum d

/-- Body of a JSON string literal after the opening quote: unescapes up to
the closing quote and returns the content and the remaining input.  Raw
control characters are rejected (strict mode); surrogate-pair escapes are
recombined as CPython does; escapes that would decode to a lone surrogate
are rejected (not representable as Lean characters). -/
def parseStrBody : List Char → Option (List Char × List Char)
  | [] => none
  | c :: cs =>
    if c = '"' then some ([], cs)
    else if c = '\\' then
      match cs with
      | [] => none
      | e :: cs2 =>
        if e = 'n' then (parseStrBody cs2).map (fun p => ('\n' :: p.1, p.2))
        else if e = 't' then (parseStrBody cs2).map (fun p => ('\t' :: p.1, p.2))
        else if e = 'r' then (parseStrBody cs2).map (fun p => ('\r' :: p.1, p.2))
        else if e = 'b' then (parseStrBody cs2).map (fun p => (Char.ofNat 8 :: p.1, p.2))
        else if e = 'f' then (parseStrBody cs2).map (fun p => (Char.ofNat 12 :: p.1, p.2))
        else if e = '"' then (parseStrBody cs2).map (fun p => ('"' :: p.1, p.2))
        else if e = '\\' then (parseStrBody cs2).map (fun p => ('\\' :: p.1, p.2))
        else if e = '/' then (parseStrBody cs2).map (fun p => ('/' :: p.1, p.2))
        else if e = 'u' then
          match cs2 with
          | h1 :: h2 :: h3 :: h4 :: cs3 =>
            if hexOk h1 && hexOk h2 && hexOk h3 && hexOk h4 then
              if 55296 ≤ hex4 h1 h2 h3 h4 ∧ hex4 h1 h2 h3 h4 < 56320 then
                match cs3 with
                | b1 :: u1 :: g1 :: g2 :: g3 :: g4 :: cs4 =>
                  if b1 = '\\' ∧ u1 = 'u' then
                    if hexOk g1 && hexOk g2 && hexOk g3 && hexOk g4 then
                      if 56320 ≤ hex4 g1 g2 g3 g4 ∧ hex4 g1 g2 g3 g4 < 57344 then
                        (parseStrBody cs4).map (fun p =>
                          (Char.ofNat (65536 + (hex4 h1 h2 h3 h4 - 55296) * 1024 +
                            (hex4 g1 g2 g3 g4 - 56320)) :: p.1, p.2))
                      else none
                    else none
                  else none
                | _ => none
              else if 56320 ≤ hex4 h1 h2 h3 h4 ∧ hex4 h1 h2 h3 h4 < 57344 then none
              else (parseStrBody cs3).map (fun p => (Char.ofNat (hex4 h1 h2 h3 h4) :: p.1, p.2))
            else none
          | _ => none
        else none
    else if c.toNat < 32 then none
    else (parseStrBody cs).map (fun p => (c :: p.1, p.2))

def isDigitB (c : Char) : Bool := 48 ≤ c.toNat && c.toNat ≤ 57

def digitVal (c : Char) : Nat := c.toNat - 48

/-- Consume a maximal run of decimal digits, folding them onto acc. -/
def parseDigits (acc : Nat) : List Char → Nat × List Char
  | [] => (acc, [])
  | c :: cs => if isDigitB c then parseDigits (acc * 10 + digitVal c) cs else (acc, c :: cs)

/-- True when the input does not continue with a decimal digit. -/
def noLeadDigit : List Char → Bool
  | [] => true
  | c :: _ => !(isDigitB c)

/-- CPython dict insertion: a repeated key keeps its original position and
takes the latest value. -/
def insertKey : JsonObj → String → Json → JsonObj
  | .nil, k, v => .cons k v .nil
  | .cons k2 v2 tl, k, v =>
      if k2 = k then .cons k2 v tl else .cons k2 v2 (insertKey tl k v)

mutual

def parseVal : Nat → List Char → Option (Json × List Char)
  | 0, _ => none
  | f + 1, cs =>
    match skipWs cs with
    | [] => none
    | c :: cs2 =>
      if c = '"' then (parseStrBody cs2).map (fun p => (.str (String.mk p.1), p.2))
      else if c = '[' then
        match skipWs cs2 with
        | [] => none
        | c3 :: cs3 =>
          if c3 = ']' then some (.arr .nil, cs3)
          else (parseElems f (c3 :: cs3)).map (fun p => (.arr p.1, p.2))
      else if c = '{' then
        match skipWs cs2 with
        | [] => none
        | c3 :: cs3 =>
          if c3 = '}' then some (.obj .nil, cs3)
          else (parseMembers f .nil (c3 :: cs3)).map (fun p => (.obj p.1, p.2))
      else if c = 't' then
        match cs2 with
        | 'r' :: 'u' :: 'e' :: cs3 => some (.bool true, cs3)
        | _ => none
      else if c = 'f' then
        match cs2 with
        | 'a' :: 'l' :: 's' :: 'e' :: cs3 => some (.bool false, cs3)
        | _ => none
      else if c = 'n' then
        match cs2 with
        | 'u' :: 'l' :: 'l' :: cs3 => some (.null, cs3)
        | _ => none
      else if c = '-' then
        match cs2 with
        | [] => none
        | d :: cs3 =>
          if isDigitB d then
            some (.num (-(Int.ofNat (parseDigits 0 (d :: cs3)).1)), (parseDigits 0 (d :: cs3)).2)
          else none
      else if isDigitB c then
        some (.num (Int.ofNat (parseDigits 0 (c :: cs2)).1), (parseDigits 0 (c :: cs2)).2)
      else none

def parseElems : Nat → List Char → Option (JsonArr × List Char)
  | 0, _ => none
  | f + 1, cs =>
    match parseVal f cs with
    | none => none
    | some (v, rest) =>
      match skipWs rest with
      | [] => none
      | c3 :: rest2 =>
        if c3 = ',' then (parseElems f rest2).map (fun p => (.cons v p.1, p.2))
        else if c3 = ']' then some (.cons v .nil, rest2)
        else none

def parseMembers : Nat → JsonObj → List Char → Option (JsonObj × List Char)
  | 0, _, _ => none
  | f + 1, acc, cs =>
    match skipWs cs with
    | [] => none
    | c0 :: cs2 =>
      if c0 = '"' then
        match parseStrBody cs2 with
        | none => none
        | some (k, rest) =>
          match skipWs rest with
          | [] => none
          | c1 :: rest2 =>
            if c1 = ':' then
              match parseVal f rest2 with
              | none => none
              | some (v, rest3) =>
                match skipWs rest3 with
                | [] => none
                | c4 :: rest4 =>
                  if c4 = ',' then parseMembers f (insertKey acc (String.mk k) v) rest4
                  else if c4 = '}' then some (insertKey acc (String.mk k) v, rest4)
                  else none
            else none
      else none

end

/-- Python json.loads: parse one value, allow surrounding whitespace,
require the input to be fully consumed. -/
def jsonLoads (s : String) : Option Json :=
  match parseVal (s.data.length + 1) s.data with
  | some (v, rest) => if skipWs rest = [] then some v else none
  | none => none

/-! ## Fuel measures and well-formed values -/

mutual

def sizeJ : Json → Nat
  | .null => 1
  | .bool _ => 1
  | .num _ => 1
  | .str _ => 1
  | .arr xs => 1 + sizeA xs
  | .obj fs => 1 + sizeO fs

def sizeA : JsonArr → Nat
  | .nil => 0
  | .cons x tl => 1 + sizeJ x + sizeA tl

def sizeO : JsonObj → Nat
  | .nil => 0
  | .cons _ v tl => 1 + sizeJ v + sizeO tl

end

def keysO : JsonObj → List String
  | .nil => []
  | .cons k _ tl => k :: keysO tl

def memKey (k : String) : List String → Bool
  | [] => false
  | k2 :: tl => k2 == k || memKey k tl

/- Well-formedness: every object in the tree has pairwise distinct keys.
Values built by the repository (and values produced by the reader, whose
dict insertion deduplicates) satisfy this. -/

mutual

def wfJ : Json → Bool
  | .null => true
  | .bool _ => true
  | .num _ => true
  | .str _ => true
  | .arr xs => wfA xs
  | .obj fs => wfO fs

def wfA : JsonArr → Bool
  | .nil => true
  | .cons x tl => wfJ x && wfA tl

def wfO : JsonObj → Bool
  | .nil => true
  | .cons k v tl => !memKey k (keysO tl) && wfJ v && wfO tl

end

def appendO : JsonObj → JsonObj → JsonObj
  | .nil, b => b
  | .cons k v tl, b => .cons k v (appendO tl b)

/-- Left fold of CPython dict insertion over parsed members. -/
def foldIns : JsonObj → JsonObj → JsonObj
  | acc, .nil => acc
  | acc, .cons k v tl => foldIns (insertKey acc k v) tl

theorem appendO_nil : ∀ a : JsonObj, appendO a .nil = a
  | .nil => rfl
  | .cons k v tl => by simp [appendO, appendO_nil tl]

theorem insertKey_fresh : ∀ (acc : JsonObj) (k : String) (v : Json),
    memKey k (keysO acc) = false → insertKey acc k v = appendO acc (.cons k v .nil)
  | .nil, k, v, _ => rfl
  | .cons k2 v2 tl, k, v, h => by
    simp only [keysO, memKey, Bool.or_eq_false_iff, beq_eq_false_iff_ne] at h
    simp only [insertKey, appendO, if_neg h.1]
    rw [insertKey_fresh tl k v h.2]

theorem keysO_appendO : ∀ a b : JsonObj, keysO (appendO a b) = keysO a ++ keysO b
  | .nil, b => rfl
  | .cons k v tl, b => by simp [appendO, keysO, keysO_appendO tl b]

theorem appendO_assoc : ∀ a b c : JsonObj, appendO (appendO a b) c = appendO a (appendO b c)
  | .nil, b, c => rfl
  | .cons k v tl, b, c => by simp [appendO, appendO_assoc tl b c]

theorem memKey_append (k : String) : ∀ a b : List String,
    memKey k (a ++ b) = (memKey k a || memKey k b)
  | [], b => rfl
  | k2 :: tl, b => by simp [memKey, memKey_append k tl b, Bool.or_assoc]

theorem foldIns_disjoint : ∀ (fs acc : JsonObj), wfO fs = true →
    (∀ k2, memKey k2 (keysO fs) = true → memKey k2 (keysO acc) = false) →
    foldIns acc fs = appendO acc fs
  | .nil, acc, _, _ => by simp [foldIns, appendO_nil]
  | .cons k v tl, acc, hwf, hdis => by
    simp only [wfO, Bool.and_eq_true, Bool.not_eq_true'] at hwf
    have hfresh : memKey k (keysO tl) = false := hwf.1.1
    have hkacc : memKey k (keysO acc) = false := by
      apply hdis; simp [keysO, memKey]
    simp only [foldIns]
    rw [insertKey_fresh acc k v hkacc]
    rw [foldIns_disjoint tl (appendO acc (.cons k v .nil)) hwf.2]
    · rw [appendO_assoc]; rfl
    · intro k2 hk2
      rw [keysO_appendO, memKey_append]
      have h1 : memKey k2 (keysO acc) = false := by
        apply hdis; simp [keysO, memKey, hk2]
      have h2 : memKey k2 (keysO (JsonObj.cons k v .nil)) = false := by
        simp only [keysO, memKey, Bool.or_eq_false_iff]
        refine ⟨?_, trivial⟩
        rw [beq_eq_false_iff_ne]
        intro he
        rw [he] at hfresh
        rw [hfresh] at hk2
        exact Bool.false_ne_true hk2
      rw [h1, h2]
      rfl

theorem foldIns_nil (fs : JsonObj) (hwf : wfO fs = true) : foldIns .nil fs = fs := by
  rw [foldIns_disjoint fs .nil hwf (fun k2 _ => rfl)]
  rfl

/-! ## Character facts -/

theorem charEq_of_toNat {c d : Char} (h : c.toNat = d.toNat) : c = d :=
  Char.ext (UInt32.ext h)

theorem charNe_of_toNat {c d : Char} (h : c.toNat ≠ d.toNat) : c ≠ d :=
  fun he => h (he ▸ rfl)

/-- Every Lean character is a Unicode scalar value: below the surrogate
block or above it and below 0x110000. -/
theorem char_valid_range (c : Char) :
    c.toNat < 55296 ∨ (57343 < c.toNat ∧ c.toNat < 1114112) := by
  have h := c.valid
  unfold UInt32.isValidChar Nat.isValidChar at h
  exact h

theorem skipWs_not {c : Char} (cs : List Char) (h : isJsonWs c = false) :
    skipWs (c :: cs) = c :: cs := by simp [skipWs, h]

theorem skipWs_sp (cs : List Char) : skipWs (' ' :: cs) = skipWs cs := rfl

theorem hexOk_hexChar : ∀ d : Nat, d < 16 → hexOk (hexChar d) = true := by decide

theorem hexNum_hexChar : ∀ d : Nat, d < 16 → hexNum (hexChar d) = d := by decide

theorem isDigitB_hexChar : ∀ d : Nat, d < 10 → isDigitB (hexChar d) = true := by decide

theorem digitVal_hexChar : ∀ d : Nat, d < 10 → digitVal (hexChar d) = d := by decide

theorem isDigitB_toNat {c : Char} (h : isDigitB c = true) : 48 ≤ c.toNat ∧ c.toNat ≤ 57 := by
  simp only [isDigitB, Bool.and_eq_true, decide_eq_true_eq] at h
  exact h

theorem hex4_uEsc (n : Nat) (hn : n < 65536) :
    hex4 (hexChar (n / 4096 % 16)) (hexChar (n / 256 % 16)) (hexChar (n / 16 % 16))
      (hexChar (n % 16)) = n := by
  unfold hex4
  rw [hexNum_hexChar _ (Nat.mod_lt _ (by omega)), hexNum_hexChar _ (Nat.mod_lt _ (by omega)),
      hexNum_hexChar _ (Nat.mod_lt _ (by omega)), hexNum_hexChar _ (Nat.mod_lt _ (by omega))]
  omega

theorem hexOk4_uEsc (n : Nat) :
    (hexOk (hexChar (n / 4096 % 16)) && hexOk (hexChar (n / 256 % 16)) &&
      hexOk (hexChar (n / 16 % 16)) && hexOk (hexChar (n % 16))) = true := by
  rw [hexOk_hexChar _ (Nat.mod_lt _ (by omega)), hexOk_hexChar _ (Nat.mod_lt _ (by omega)),
      hexOk_hexChar _ (Nat.mod_lt _ (by omega)), hexOk_hexChar _ (Nat.mod_lt _ (by omega))]
  rfl


theorem uEsc_append (n : Nat) (rest : List Char) :
    uEsc n ++ rest = '\\' :: 'u' :: hexChar (n / 4096 % 16) :: hexChar (n / 256 % 16) ::
      hexChar (n / 16 % 16) :: hexChar (n % 16) :: rest := rfl

/-- Reading back a single \uXXXX escape of a non-surrogate code point. -/
theorem parse_uEsc (n : Nat) (hn : n < 65536) (hs1 : ¬(55296 ≤ n ∧ n < 56320))
    (hs2 : ¬(56320 ≤ n ∧ n < 57344)) (rest : List Char) :
    parseStrBody (uEsc n ++ rest) =
      (parseStrBody rest).map (fun p => (Char.ofNat n :: p.1, p.2)) := by
  rw [uEsc_append]
  conv => lhs; rw [parseStrBody.eq_def]
  simp only []
  rw [hex4_uEsc n hn]
  simp [hexOk4_uEsc n, hs1, hs2]

/-- Reading back a surrogate-pair escape of an astral code point. -/
theorem parse_uEscPair (v : Nat) (hv : 65536 ≤ v) (hv2 : v < 1114112) (rest : List Char) :
    parseStrBody (uEsc (55296 + (v - 65536) / 1024) ++ (uEsc (56320 + (v - 65536) % 1024) ++ rest)) =
      (parseStrBody rest).map (fun p => (Char.ofNat v :: p.1, p.2)) := by
  have hhi : 55296 + (v - 65536) / 1024 < 65536 := by omega
  have hlo : 56320 + (v - 65536) % 1024 < 65536 := by omega
  have hr1 : 55296 ≤ 55296 + (v - 65536) / 1024 ∧ 55296 + (v - 65536) / 1024 < 56320 := by omega
  have hr2 : 56320 ≤ 56320 + (v - 65536) % 1024 ∧ 56320 + (v - 65536) % 1024 < 57344 := by omega
  have harg : 65536 + (v - 65536) / 1024 * 1024 + (v - 65536) % 1024 = v := by omega
  rw [uEsc_append, uEsc_append]
  conv => lhs; rw [parseStrBody.eq_def]
  simp only []
  rw [hex4_uEsc _ hhi, hex4_uEsc _ hlo]
  simp [hexOk4_uEsc, hr1, hr2, harg]

/-- One escaped character reads back to that character. -/
theorem escChar_parse (c : Char) (rest : List Char) :
    parseStrBody (escapeChar c ++ rest) =
      (parseStrBody rest).map (fun p => (c :: p.1, p.2)) := by
  by_cases h1 : c = '"'
  · subst h1
    show parseStrBody ('\\' :: '"' :: rest) = _
    conv => lhs; rw [parseStrBody.eq_def]
    simp
  by_cases h2 : c = '\\'
  · subst h2
    show parseStrBody ('\\' :: '\\' :: rest) = _
    conv => lhs; rw [parseStrBody.eq_def]
    simp
  by_cases h3 : c = '\n'
  · subst h3
    show parseStrBody ('\\' :: 'n' :: rest) = _
    conv => lhs; rw [parseStrBody.eq_def]
    simp
  by_cases h4 : c = '\r'
  · subst h4
    show parseStrBody ('\\' :: 'r' :: rest) = _
    conv => lhs; rw [parseStrBody.eq_def]
    simp
  by_cases h5 : c = '\t'
  · subst h5
    show parseStrBody ('\\' :: 't' :: rest) = _
    conv => lhs; rw [parseStrBody.eq_def]
    simp
  by_cases h6 : c.toNat = 8
  · have hc : c = Char.ofNat 8 := charEq_of_toNat (by rw [h6]; rfl)
    rw [hc]
    show parseStrBody ('\\' :: 'b' :: rest) = _
    conv => lhs; rw [parseStrBody.eq_def]
    simp
  by_cases h7 : c.toNat = 12
  · have hc : c = Char.ofNat 12 := charEq_of_toNat (by rw [h7]; rfl)
    rw [hc]
    show parseStrBody ('\\' :: 'f' :: rest) = _
    conv => lhs; rw [parseStrBody.eq_def]
    simp
  by_cases h8 : c.toNat < 32
  · have he : escapeChar c = uEsc c.toNat := by
      simp only [escapeChar, if_neg h1, if_neg h2, if_neg h3, if_neg h4, if_neg h5,
        if_neg h6, if_neg h7, if_pos h8]
    rw [he, parse_uEsc c.toNat (by omega) (by omega) (by omega) rest, Char.ofNat_toNat]
  by_cases h9 : c.toNat < 127
  · have he : escapeChar c = [c] := by
      simp only [escapeChar, if_neg h1, if_neg h2, if_neg h3, if_neg h4, if_neg h5,
        if_neg h6, if_neg h7, if_neg h8, if_pos h9]
    rw [he]
    show parseStrBody (c :: rest) = _
    conv => lhs; rw [parseStrBody.eq_def]
    simp only []
    rw [if_neg h1, if_neg h2, if_neg h8]
  · have hval := char_valid_range c
    by_cases h10 : c.toNat < 65536
    · have he : escapeChar c = uEsc c.toNat := by
        simp only [escapeChar, if_neg h1, if_neg h2, if_neg h3, if_neg h4, if_neg h5,
          if_neg h6, if_neg h7, if_neg h8, if_neg h9, if_pos h10]
      rw [he, parse_uEsc c.toNat (by omega) (by omega) (by omega) rest, Char.ofNat_toNat]
    · have he : escapeChar c = uEsc (55296 + (c.toNat - 65536) / 1024) ++
          uEsc (56320 + (c.toNat - 65536) % 1024) := by
        simp only [escapeChar, if_neg h1, if_neg h2, if_neg h3, if_neg h4, if_neg h5,
          if_neg h6, if_neg h7, if_neg h8, if_neg h9, if_neg h10]
      rw [he, List.append_assoc,
        parse_uEscPair c.toNat (by omega) (by omega) rest, Char.ofNat_toNat]

/-- A fully escaped string body followed by the closing quote reads back to
exactly that string. -/
theorem parseStrBody_esc : ∀ (cs rest : List Char),
    parseStrBody (escList cs ++ '"' :: rest) = some (cs, rest)
  | [], rest => by
    show parseStrBody ('"' :: rest) = _
    conv => lhs; rw [parseStrBody.eq_def]
    simp
  | c :: cs, rest => by
    show parseStrBody ((escapeChar c ++ escList cs) ++ '"' :: rest) = _
    rw [List.append_assoc, escChar_parse, parseStrBody_esc cs rest]
    rfl

/-! ## Decimal numerals round-trip -/

theorem natCharsAux_congr : ∀ f g n : Nat, n < f → n < g → natCharsAux f n = natCharsAux g n
  | 0, _, n, hf, _ => (Nat.not_lt_zero n hf).elim
  | _ + 1, 0, n, _, hg => (Nat.not_lt_zero n hg).elim
  | f + 1, g + 1, n, hf, hg => by
    simp only [natCharsAux]
    by_cases h : n < 10
    · simp [h]
    · have hd : n / 10 < n := Nat.div_lt_self (by omega) (by omega)
      simp only [if_neg h]
      rw [natCharsAux_congr f g (n / 10) (by omega) (by omega)]

theorem natToChars_eq (n : Nat) :
    natToChars n = if n < 10 then [hexChar n]
      else natToChars (n / 10) ++ [hexChar (n % 10)] := by
  show natCharsAux (n + 1) n = _
  rw [natCharsAux]
  by_cases h : n < 10
  · simp [h]
  · simp only [if_neg h]
    rw [natCharsAux_congr n (n / 10 + 1) (n / 10)
      (Nat.div_lt_self (by omega) (by omega)) (Nat.lt_succ_self _)]
    rfl

theorem natToChars_head (n : Nat) :
    ∃ d ds, natToChars n = d :: ds ∧ isDigitB d = true := by
  induction n using Nat.strong_induction_on with
  | _ n ih =>
    rw [natToChars_eq]
    by_cases h : n < 10
    · exact ⟨hexChar n, [], by simp [h], isDigitB_hexChar n h⟩
    · obtain ⟨d, ds, hd, hdig⟩ := ih (n / 10) (Nat.div_lt_self (by omega) (by omega))
      exact ⟨d, ds ++ [hexChar (n % 10)], by simp [h, hd], hdig⟩

theorem natToChars_len (n : Nat) : 1 ≤ (natToChars n).length := by
  obtain ⟨d, ds, hd, _⟩ := natToChars_head n
  simp [hd]

theorem parseDigits_stop (acc : Nat) (rest : List Char) (h : noLeadDigit rest = true) :
    parseDigits acc rest = (acc, rest) := by
  cases rest with
  | nil => rfl
  | cons c cs =>
    simp only [noLeadDigit, Bool.not_eq_true'] at h
    simp [parseDigits, h]

theorem parseDigits_chain (n : Nat) : ∀ (acc : Nat) (rest : List Char),
    parseDigits acc (natToChars n ++ rest) =
      parseDigits (acc * 10 ^ (natToChars n).length + n) rest := by
  induction n using Nat.strong_induction_on with
  | _ n ih =>
    intro acc rest
    rw [natToChars_eq]
    by_cases h : n < 10
    · simp only [if_pos h, List.cons_append, List.nil_append, List.length_singleton]
      rw [parseDigits, if_pos (isDigitB_hexChar n h), digitVal_hexChar n h]
      simp
    · simp only [if_neg h, List.append_assoc, List.cons_append, List.nil_append,
        List.length_append, List.length_singleton]
      rw [ih (n / 10) (Nat.div_lt_self (by omega) (by omega))]
      rw [parseDigits, if_pos (isDigitB_hexChar _ (Nat.mod_lt _ (by omega))),
        digitVal_hexChar _ (Nat.mod_lt _ (by omega))]
      congr 1
      have h1 : n / 10 * 10 + n % 10 = n := by omega
      calc (acc * 10 ^ (natToChars (n / 10)).length + n / 10) * 10 + n % 10
          = acc * (10 ^ (natToChars (n / 10)).length * 10) + (n / 10 * 10 + n % 10) := by ring
        _ = acc * 10 ^ ((natToChars (n / 10)).length + 1) + n := by rw [h1, pow_succ]

theorem parseNat_full (n : Nat) (rest : List Char) (h : noLeadDigit rest = true) :
    parseDigits 0 (natToChars n ++ rest) = (n, rest) := by
  rw [parseDigits_chain, Nat.zero_mul, Nat.zero_add, parseDigits_stop _ _ h]

/-! ## Head characters of serialized values -/

theorem digit_facts (c : Char) (h : isDigitB c = true) :
    isJsonWs c = false ∧ c ≠ ']' ∧ c ≠ '}' ∧ c ≠ ',' := by
  have hb := isDigitB_toNat h
  refine ⟨?_, ?_, ?_, ?_⟩
  · refine Bool.eq_false_iff.mpr (fun hw => ?_)
    simp only [isJsonWs, Bool.or_eq_true, decide_eq_true_eq] at hw
    rcases hw with ((h | h) | h) | h <;> (rw [h] at hb; exact absurd hb (by decide))
  · intro he; rw [he] at hb; exact absurd hb (by decide)
  · intro he; rw [he] at hb; exact absurd hb (by decide)
  · intro he; rw [he] at hb; exact absurd hb (by decide)

theorem dumpElems_cons (x : Json) (tl : JsonArr) :
    ∃ l, dumpElems (.cons x tl) = dumpVal x ++ l := by
  cases tl with
  | nil => exact ⟨[], by simp [dumpElems]⟩
  | cons y tl2 => exact ⟨',' :: ' ' :: dumpElems (.cons y tl2), by simp [dumpElems]⟩

theorem dump_head (j : Json) :
    ∃ c cs, dumpVal j = c :: cs ∧ isJsonWs c = false ∧ c ≠ ']' := by
  cases j with
  | null => exact ⟨'n', ['u', 'l', 'l'], by simp [dumpVal], rfl, by decide⟩
  | bool b =>
    cases b with
    | true => exact ⟨'t', ['r', 'u', 'e'], by simp [dumpVal], rfl, by decide⟩
    | false => exact ⟨'f', ['a', 'l', 's', 'e'], by simp [dumpVal], rfl, by decide⟩
  | num n =>
    by_cases hn : n < 0
    · exact ⟨'-', natToChars n.natAbs, by simp [dumpVal, intToChars, if_pos hn], rfl, by decide⟩
    · obtain ⟨d, ds, hd, hdig⟩ := natToChars_head n.toNat
      obtain ⟨hws, hne, _, _⟩ := digit_facts d hdig
      exact ⟨d, ds, by simp [dumpVal, intToChars, if_neg hn, hd], hws, hne⟩
  | str s => exact ⟨'"', escList s.data ++ ['"'], by simp [dumpVal, escapeString], rfl, by decide⟩
  | arr xs => exact ⟨'[', dumpElems xs ++ [']'], by simp [dumpVal], rfl, by decide⟩
  | obj fs => exact ⟨'{', dumpMembers fs ++ ['}'], by simp [dumpVal], rfl, by decide⟩

/-! ## Fuel bounds -/

theorem sizeJ_pos (j : Json) : 1 ≤ sizeJ j := by
  cases j <;> simp [sizeJ]

mutual

theorem sizeJ_le : ∀ j : Json, sizeJ j ≤ (dumpVal j).length
  | .null => by simp [sizeJ, dumpVal]
  | .bool true => by simp [sizeJ, dumpVal]
  | .bool false => by simp [sizeJ, dumpVal]
  | .num n => by
    simp only [sizeJ, dumpVal, intToChars]
    by_cases hn : n < 0
    · simp only [if_pos hn, List.length_cons]
      have := natToChars_len n.natAbs
      omega
    · simp only [if_neg hn]
      exact natToChars_len n.toNat
  | .str s => by simp [sizeJ, dumpVal, escapeString]
  | .arr .nil => by simp [sizeJ, sizeA, dumpVal, dumpElems]
  | .arr (.cons x tl) => by
    have h := sizeA_le x tl
    simp only [sizeJ, dumpVal, List.length_cons, List.length_append, List.length_singleton]
    omega
  | .obj .nil => by simp [sizeJ, sizeO, dumpVal, dumpMembers]
  | .obj (.cons k v tl) => by
    have h := sizeO_le k v tl
    simp only [sizeJ, dumpVal, List.length_cons, List.length_append, List.length_singleton]
    omega
  termination_by j => sizeOf j

theorem sizeA_le : ∀ (x : Json) (tl : JsonArr),
    sizeA (.cons x tl) ≤ (dumpElems (.cons x tl)).length + 1
  | x, .nil => by
    have h := sizeJ_le x
    simp only [sizeA, dumpElems]
    omega
  | x, .cons y tl2 => by
    have h1 := sizeJ_le x
    have h2 := sizeA_le y tl2
    simp only [sizeA, dumpElems, List.length_append, List.length_cons] at *
    omega
  termination_by x tl => sizeOf (JsonArr.cons x tl)

theorem sizeO_le : ∀ (k : String) (v : Json) (tl : JsonObj),
    sizeO (.cons k v tl) ≤ (dumpMembers (.cons k v tl)).length + 1
  | k, v, .nil => by
    have h := sizeJ_le v
    simp only [sizeO, dumpMembers, List.length_append, List.length_cons]
    omega
  | k, v, .cons k2 v2 tl2 => by
    have h1 := sizeJ_le v
    have h2 := sizeO_le k2 v2 tl2
    simp only [sizeO, dumpMembers, List.length_append, List.length_cons] at *
    omega
  termination_by k v tl => sizeOf (JsonObj.cons k v tl)

end

/-! ## Leading-whitespace invariance and small helpers -/

theorem parseVal_ws (f : Nat) (cs : List Char) : parseVal f (' ' :: cs) = parseVal f cs := by
  cases f with
  | zero => rfl
  | succ f =>
    conv => lhs; rw [parseVal.eq_def]
    conv => rhs; rw [parseVal.eq_def]
    simp only [skipWs_sp]

theorem parseElems_ws (f : Nat) (cs : List Char) : parseElems f (' ' :: cs) = parseElems f cs := by
  cases f with
  | zero => rfl
  | succ f =>
    conv => lhs; rw [parseElems.eq_def]
    conv => rhs; rw [parseElems.eq_def]
    simp only [parseVal_ws]

theorem parseMembers_ws (f : Nat) (acc : JsonObj) (cs : List Char) :
    parseMembers f acc (' ' :: cs) = parseMembers f acc cs := by
  cases f with
  | zero => rfl
  | succ f =>
    conv => lhs; rw [parseMembers.eq_def]
    conv => rhs; rw [parseMembers.eq_def]
    simp only [skipWs_sp]

theorem digit_ne (c d : Char) (h : isDigitB c = true)
    (hd : d.toNat < 48 ∨ 57 < d.toNat) : c ≠ d := by
  have hb := isDigitB_toNat h
  intro he; rw [he] at hb; omega

theorem dumpMembers_cons (k : String) (v : Json) (tl : JsonObj) :
    ∃ l, dumpMembers (.cons k v tl) = '"' :: (escList k.data ++ ('"' :: l)) := by
  cases tl with
  | nil =>
    exact ⟨':' :: ' ' :: dumpVal v, by
      simp [dumpMembers, escapeString, List.append_assoc]⟩
  | cons k2 v2 tl2 =>
    exact ⟨':' :: ' ' :: (dumpVal v ++ (',' :: ' ' :: dumpMembers (.cons k2 v2 tl2))), by
      simp [dumpMembers, escapeString, List.append_assoc]⟩

theorem stringMk_data (s : String) : String.mk s.data = s := rfl

/-! ## The reader inverts the serializer -/

mutual

theorem parseVal_dump : ∀ (f : Nat) (j : Json) (rest : List Char), sizeJ j ≤ f →
    wfJ j = true → noLeadDigit rest = true →
    parseVal f (dumpVal j ++ rest) = some (j, rest)
  | 0, j, _, hf, _, _ => absurd hf (by have := sizeJ_pos j; omega)
  | f + 1, j, rest, hf, hwf, hnd => by
    cases j with
    | null =>
      show parseVal (f + 1) ('n' :: 'u' :: 'l' :: 'l' :: rest) = _
      conv => lhs; rw [parseVal.eq_def]
      simp +decide [skipWs, isJsonWs]
    | bool b =>
      cases b with
      | true =>
        show parseVal (f + 1) ('t' :: 'r' :: 'u' :: 'e' :: rest) = _
        conv => lhs; rw [parseVal.eq_def]
        simp +decide [skipWs, isJsonWs]
      | false =>
        show parseVal (f + 1) ('f' :: 'a' :: 'l' :: 's' :: 'e' :: rest) = _
        conv => lhs; rw [parseVal.eq_def]
        simp +decide [skipWs, isJsonWs]
    | num n =>
      by_cases hneg : n < 0
      · obtain ⟨d, ds, hnat, hdig⟩ := natToChars_head n.natAbs
        have hd : dumpVal (.num n) ++ rest = '-' :: (d :: (ds ++ rest)) := by
          simp [dumpVal, intToChars, if_pos hneg, hnat]
        rw [hd]
        conv => lhs; rw [parseVal.eq_def]
        simp +decide [skipWs, isJsonWs]
        simp [hdig]
        rw [show d :: (ds ++ rest) = natToChars n.natAbs ++ rest from by rw [hnat]; rfl]
        rw [parseNat_full n.natAbs rest hnd]
        simp [Int.natCast_natAbs, abs_of_neg hneg]
      · obtain ⟨d, ds, hnat, hdig⟩ := natToChars_head n.toNat
        obtain ⟨hws0, _, _, _⟩ := digit_facts d hdig
        have hd : dumpVal (.num n) ++ rest = d :: (ds ++ rest) := by
          simp [dumpVal, intToChars, if_neg hneg, hnat]
        rw [hd]
        conv => lhs; rw [parseVal.eq_def]
        simp only []
        rw [skipWs_not _ hws0]
        simp only []
        rw [if_neg (digit_ne d '"' hdig (by decide)), if_neg (digit_ne d '[' hdig (by decide)),
            if_neg (digit_ne d '{' hdig (by decide)), if_neg (digit_ne d 't' hdig (by decide)),
            if_neg (digit_ne d 'f' hdig (by decide)), if_neg (digit_ne d 'n' hdig (by decide)),
            if_neg (digit_ne d '-' hdig (by decide)), if_pos hdig]
        rw [show d :: (ds ++ rest) = natToChars n.toNat ++ rest from by rw [hnat]; rfl]
        rw [parseNat_full n.toNat rest hnd]
        simp [Int.toNat_of_nonneg (by omega : (0 : Int) ≤ n)]
    | str s =>
      have hd : dumpVal (.str s) ++ rest = '"' :: (escList s.data ++ ('"' :: rest)) := by
        simp [dumpVal, escapeString, List.append_assoc]
      rw [hd]
      conv => lhs; rw [parseVal.eq_def]
      simp +decide [skipWs, isJsonWs, parseStrBody_esc, stringMk_data]
    | arr xs =>
      cases xs with
      | nil =>
        show parseVal (f + 1) ('[' :: ']' :: rest) = _
        conv => lhs; rw [parseVal.eq_def]
        simp +decide [skipWs, isJsonWs]
      | cons x tl =>
        obtain ⟨c0, cs0, hhead, hws0, hne0⟩ := dump_head x
        obtain ⟨ltail, hel⟩ := dumpElems_cons x tl
        have hd : dumpVal (.arr (.cons x tl)) ++ rest =
            '[' :: (c0 :: (cs0 ++ (ltail ++ (']' :: rest)))) := by
          simp [dumpVal, hel, hhead, List.append_assoc]
        rw [hd]
        conv => lhs; rw [parseVal.eq_def]
        simp only []
        rw [skipWs_not _ (by decide : isJsonWs '[' = false)]
        simp only [reduceIte]
        rw [skipWs_not _ hws0]
        simp only []
        rw [if_neg hne0]
        have hre : c0 :: (cs0 ++ (ltail ++ (']' :: rest))) =
            dumpElems (.cons x tl) ++ (']' :: rest) := by
          rw [hel, hhead]; simp [List.append_assoc]
        rw [hre]
        rw [parseElems_dump f x tl rest (by simp only [sizeJ] at hf; omega)
          (by simpa [wfJ] using hwf)]
        rfl
    | obj fs =>
      cases fs with
      | nil =>
        show parseVal (f + 1) ('{' :: '}' :: rest) = _
        conv => lhs; rw [parseVal.eq_def]
        simp +decide [skipWs, isJsonWs]
      | cons k v tl =>
        obtain ⟨ltail, hml⟩ := dumpMembers_cons k v tl
        have hd : dumpVal (.obj (.cons k v tl)) ++ rest =
            '{' :: ('"' :: ((escList k.data ++ ('"' :: ltail)) ++ ('}' :: rest))) := by
          simp [dumpVal, hml, List.append_assoc]
        rw [hd]
        conv => lhs; rw [parseVal.eq_def]
        simp only []
        rw [skipWs_not _ (by decide : isJsonWs '{' = false)]
        simp only [reduceIte]
        rw [skipWs_not _ (by decide : isJsonWs '"' = false)]
        simp only [reduceIte]
        have hre : '"' :: ((escList k.data ++ ('"' :: ltail)) ++ ('}' :: rest)) =
            dumpMembers (.cons k v tl) ++ ('}' :: rest) := by
          rw [hml]; simp [List.append_assoc]
        rw [hre]
        rw [parseMembers_dump f .nil k v tl rest (by simp only [sizeJ] at hf; omega)
          (by simpa [wfJ] using hwf)]
        have hwo : wfO (.cons k v tl) = true := by simpa [wfJ] using hwf
        simp [foldIns_nil _ hwo]

theorem parseElems_dump : ∀ (f : Nat) (x : Json) (tl : JsonArr) (rest : List Char),
    sizeA (.cons x tl) ≤ f → wfA (.cons x tl) = true →
    parseElems f (dumpElems (.cons x tl) ++ (']' :: rest)) = some (.cons x tl, rest)
  | 0, x, tl, _, hf, _ => absurd hf (by simp only [sizeA]; omega)
  | f + 1, x, tl, rest, hf, hwa => by
    have hwx : wfJ x = true ∧ wfA tl = true := by
      simpa [wfA, Bool.and_eq_true] using hwa
    cases tl with
    | nil =>
      have hd : dumpElems (.cons x .nil) ++ (']' :: rest) = dumpVal x ++ (']' :: rest) := by
        simp [dumpElems]
      rw [hd]
      conv => lhs; rw [parseElems.eq_def]
      simp only []
      rw [parseVal_dump f x (']' :: rest)
        (by simp only [sizeA] at hf; omega) hwx.1 rfl]
      simp +decide [skipWs, isJsonWs]
    | cons y tl2 =>
      have hd : dumpElems (.cons x (.cons y tl2)) ++ (']' :: rest) =
          dumpVal x ++ (',' :: ' ' :: (dumpElems (.cons y tl2) ++ (']' :: rest))) := by
        simp [dumpElems, List.append_assoc]
      rw [hd]
      conv => lhs; rw [parseElems.eq_def]
      simp only []
      rw [parseVal_dump f x (',' :: ' ' :: (dumpElems (.cons y tl2) ++ (']' :: rest)))
        (by simp only [sizeA] at hf; omega) hwx.1 rfl]
      simp +decide [skipWs, isJsonWs]
      rw [parseElems_ws]
      rw [parseElems_dump f y tl2 rest
        (by simp only [sizeA] at hf ⊢; have := sizeJ_pos x; omega) hwx.2]

theorem parseMembers_dump : ∀ (f : Nat) (acc : JsonObj) (k : String) (v : Json) (tl : JsonObj)
    (rest : List Char), sizeO (.cons k v tl) ≤ f → wfO (.cons k v tl) = true →
    parseMembers f acc (dumpMembers (.cons k v tl) ++ ('}' :: rest)) =
      some (foldIns acc (.cons k v tl), rest)
  | 0, _, k, v, tl, _, hf, _ => absurd hf (by simp only [sizeO]; omega)
  | f + 1, acc, k, v, tl, rest, hf, hwo => by
    have hw : wfJ v = true ∧ wfO tl = true := by
      simp only [wfO, Bool.and_eq_true] at hwo
      exact ⟨hwo.1.2, hwo.2⟩
    cases tl with
    | nil =>
      have hd : dumpMembers (.cons k v .nil) ++ ('}' :: rest) =
          '"' :: (escList k.data ++ ('"' :: (':' :: ' ' :: (dumpVal v ++ ('}' :: rest))))) := by
        simp [dumpMembers, escapeString, List.append_assoc]
      rw [hd]
      conv => lhs; rw [parseMembers.eq_def]
      simp +decide [skipWs, isJsonWs]
      rw [parseStrBody_esc]
      simp +decide [skipWs, isJsonWs]
      rw [parseVal_ws]
      rw [parseVal_dump f v ('}' :: rest) (by simp only [sizeO] at hf; omega) hw.1 rfl]
      simp +decide [skipWs, isJsonWs, stringMk_data, foldIns]
    | cons k2 v2 tl2 =>
      have hd : dumpMembers (.cons k v (.cons k2 v2 tl2)) ++ ('}' :: rest) =
          '"' :: (escList k.data ++ ('"' :: (':' :: ' ' ::
            (dumpVal v ++ (',' :: ' ' :: (dumpMembers (.cons k2 v2 tl2) ++ ('}' :: rest))))))) := by
        simp [dumpMembers, escapeString, List.append_assoc]
      rw [hd]
      conv => lhs; rw [parseMembers.eq_def]
      simp +decide [skipWs, isJsonWs]
      rw [parseStrBody_esc]
      simp +decide [skipWs, isJsonWs]
      rw [parseVal_ws]
      rw [parseVal_dump f v (',' :: ' ' :: (dumpMembers (.cons k2 v2 tl2) ++ ('}' :: rest)))
        (by simp only [sizeO] at hf; omega) hw.1 rfl]
      simp +decide [skipWs, isJsonWs]
      rw [parseMembers_ws]
      rw [parseMembers_dump f (insertKey acc (String.mk k.data) v) k2 v2 tl2 rest
        (by simp only [sizeO] at hf ⊢; have := sizeJ_pos v; omega) hw.2]
      simp [stringMk_data, foldIns]

end

/-- Serialization round-trip at the level of the two Python entry points:
any well-formed value written by json.dumps is read back unchanged by
json.loads. -/
theorem jsonLoads_dumps (j : Json) (hwf : wfJ j = true) : jsonLoads (jsonDumps j) = some j := by
  unfold jsonLoads jsonDumps
  rw [show (String.mk (dumpVal j)).data = dumpVal j from rfl]
  have h := parseVal_dump ((dumpVal j).length + 1) j []
    (by have := sizeJ_le j; omega) hwf rfl
  rw [List.append_nil] at h
  rw [h]
  rfl

/-! ## JSON object access (Python dict .get) -/

def objLookup : JsonObj → String → Option Json
  | .nil, _ => none
  | .cons k2 v tl, k => if k2 = k then some v else objLookup tl k

/-- parsed.get(key): keys of parsed objects are unique, so first match is
the dict entry; non-dict values have no .get (the loop catches that case
before calling jget). -/
def jget : Json → String → Option Json
  | .obj fs, k => objLookup fs k
  | _, _ => none

/-! ## Quiz question records and their serialization -/

/-- A quiz question as built by generate_quiz: a dict with keys question,
options, answer, in that insertion order. -/
structure Question where
  question : String
  options : List String
  answer : String
deriving DecidableEq

def jarrOfStrings : List String → JsonArr
  | [] => .nil
  | s :: tl => .cons (.str s) (jarrOfStrings tl)

def Question.toJson (q : Question) : Json :=
  .obj (.cons "question" (.str q.question)
    (.cons "options" (.arr (jarrOfStrings q.options))
      (.cons "answer" (.str q.answer) .nil)))

def jarrOfQuestions : List Question → JsonArr
  | [] => .nil
  | q :: tl => .cons q.toJson (jarrOfQuestions tl)

/-- The JSON value json.dumps receives in save_quiz. -/
def questionsToJson (qs : List Question) : Json := .arr (jarrOfQuestions qs)

def jsonArrLen : JsonArr → Nat
  | .nil => 0
  | .cons _ tl => 1 + jsonArrLen tl

def stringsOfJarr : JsonArr → Option (List String)
  | .nil => some []
  | .cons (.str s) tl => (stringsOfJarr tl).map (s :: ·)
  | .cons _ _ => none

/-- Reads a question record back from its JSON form (the inverse used to
state the round-trip claim). -/
def questionOfJson (j : Json) : Option Question :=
  match jget j "question", jget j "options", jget j "answer" with
  | some (.str q), some (.arr opts), some (.str a) =>
    (stringsOfJarr opts).map (fun os => ⟨q, os, a⟩)
  | _, _, _ => none

def questionsOfJarr : JsonArr → Option (List Question)
  | .nil => some []
  | .cons j tl =>
    match questionOfJson j, questionsOfJarr tl with
    | some q, some qs => some (q :: qs)
    | _, _ => none

def questionsOfJson : Json → Option (List Question)
  | .arr xs => questionsOfJarr xs
  | _ => none

theorem wf_jarrOfStrings : ∀ os : List String, wfA (jarrOfStrings os) = true
  | [] => rfl
  | s :: tl => by simp [jarrOfStrings, wfA, wfJ, wf_jarrOfStrings tl]

theorem wf_questionsToJson : ∀ qs : List Question, wfJ (questionsToJson qs) = true
  | [] => rfl
  | q :: tl => by
    have h := wf_questionsToJson tl
    simp only [questionsToJson, wfJ] at h ⊢
    simp [jarrOfQuestions, wfA, wfJ, wfO, Question.toJson, keysO, memKey,
      wf_jarrOfStrings, h]

theorem stringsOfJarr_ofStrings : ∀ os : List String,
    stringsOfJarr (jarrOfStrings os) = some os
  | [] => rfl
  | s :: tl => by simp [jarrOfStrings, stringsOfJarr, stringsOfJarr_ofStrings tl]

theorem questionOfJson_toJson (q : Question) : questionOfJson q.toJson = some q := by
  simp [questionOfJson, Question.toJson, jget, objLookup, stringsOfJarr_ofStrings]

theorem questionsOfJson_toJson : ∀ qs : List Question,
    questionsOfJson (questionsToJson qs) = some qs
  | [] => rfl
  | q :: tl => by
    have h := questionsOfJson_toJson tl
    simp only [questionsToJson, questionsOfJson] at h ⊢
    simp [jarrOfQuestions, questionsOfJarr, questionOfJson_toJson, h]

theorem jsonArrLen_questions : ∀ qs : List Question,
    jsonArrLen (jarrOfQuestions qs) = qs.length
  | [] => rfl
  | q :: tl => by simp [jarrOfQuestions, jsonArrLen, jsonArrLen_questions tl]; omega

/-! ## Python string operations used by the tools -/

/-- str.split(sep) for a nonempty separator: left-to-right, non-overlapping
(fuel-based; fuel = length of the subject + 1 always suffices). -/
def splitOnAux (sep : List Char) : Nat → List Char → List Char → List (List Char)
  | 0, cur, s => [cur.reverse ++ s]
  | f + 1, cur, s =>
    match s with
    | [] => [cur.reverse]
    | c :: rest =>
      if sep.isPrefixOf s then cur.reverse :: splitOnAux sep f [] (s.drop sep.length)
      else splitOnAux sep f (c :: cur) rest

def pySplit (s sep : String) : List String :=
  if sep.data.isEmpty then [s]
  else (splitOnAux sep.data (s.data.length + 1) [] s.data).map String.mk

/-- str.replace(old, new) for a nonempty pattern: replaces every
non-overlapping occurrence, left to right. -/
def replaceAux (old new : List Char) : Nat → List Char → List Char
  | 0, s => s
  | f + 1, s =>
    match s with
    | [] => []
    | c :: rest =>
      if old.isPrefixOf s then new ++ replaceAux old new f (s.drop old.length)
      else c :: replaceAux old new f rest

def pyReplace (s old new : String) : String :=
  if old.data.isEmpty then s
  else String.mk (replaceAux old.data new.data (s.data.length + 1) s.data)

/-- str.lower() on the ASCII range (the repository data is ASCII). -/
def pyLowerChar (c : Char) : Char :=
  if 65 ≤ c.toNat ∧ c.toNat ≤ 90 then Char.ofNat (c.toNat + 32) else c

def pyLower (s : String) : String := String.mk (s.data.map pyLowerChar)

/-- Python `needle in hay` on strings: contiguous substring test. -/
def containsSub (needle : List Char) : List Char → Bool
  | [] => needle.isEmpty
  | c :: rest => needle.isPrefixOf (c :: rest) || containsSub needle rest

def pyContains (needle hay : String) : Bool := containsSub needle.data hay.data

/-! ## The StudyBuddyDB store

SQLite state as explicit row lists in rowid order.  CURRENT_TIMESTAMP is a
strictly increasing logical clock (wall-clock ties are not modeled),
AUTOINCREMENT is a per-table counter. -/

structure UserRow where
  id : Nat
  username : String
deriving DecidableEq

structure PlanRow where
  id : Nat
  user_id : Nat
  subject : String
  goal : String
  created_at : Nat
deriving DecidableEq

structure TopicRow where
  id : Nat
  plan_id : Nat
  day : Int
  topic : String
  completed : Bool
  progress : Int
deriving DecidableEq

structure QuizRow where
  id : Nat
  user_id : Nat
  topic : String
  questions : String
  created_at : Nat
deriving DecidableEq

structure DB where
  users : List UserRow
  study_plans : List PlanRow
  topics : List TopicRow
  quizzes : List QuizRow
  nextUserId : Nat
  nextPlanId : Nat
  nextTopicId : Nat
  nextQuizId : Nat
  clock : Nat
deriving DecidableEq

def emptyDB : DB := ⟨[], [], [], [], 1, 1, 1, 1, 0⟩

/-- Row-level invariants every state reachable from emptyDB satisfies:
ids below the table counters, timestamps below the clock, and the UNIQUE
constraint on usernames. -/
def DB.wf (db : DB) : Prop :=
  (∀ p ∈ db.study_plans, p.created_at < db.clock ∧ p.id < db.nextPlanId) ∧
  (∀ q ∈ db.quizzes, q.created_at < db.clock ∧ q.id < db.nextQuizId) ∧
  (∀ t ∈ db.topics, t.plan_id < db.nextPlanId) ∧
  (∀ u ∈ db.users, u.id < db.nextUserId) ∧
  (db.users.map (fun u => u.username)).Nodup

instance (db : DB) : Decidable db.wf := by
  unfold DB.wf; infer_instance

/-- StudyBuddyDB.get_or_create_user. -/
def get_or_create_user (db : DB) (username : String) : DB × Nat :=
  match db.users.find? (fun u => u.username == username) with
  | some u => (db, u.id)
  | none =>
    ({ db with
        users := db.users ++ [⟨db.nextUserId, username⟩],
        nextUserId := db.nextUserId + 1 }, db.nextUserId)

/-- A topic record as passed to create_study_plan. -/
structure TopicIn where
  day : Int
  topic : String
  completed : Bool
deriving DecidableEq

/-- StudyBuddyDB.create_study_plan: the plan row, then one topic row per
record, in order; the progress column is the literal 0, the completed
column is the incoming flag. -/
def create_study_plan (db : DB) (user_id : Nat) (subject goal : String)
    (topics : List TopicIn) : DB × Nat :=
  let plan_id := db.nextPlanId
  let rows := topics.enum.map (fun it =>
    TopicRow.mk (db.nextTopicId + it.1) plan_id it.2.day it.2.topic it.2.completed 0)
  ({ db with
      study_plans := db.study_plans ++ [⟨plan_id, user_id, subject, goal, db.clock⟩],
      topics := db.topics ++ rows,
      nextPlanId := plan_id + 1,
      nextTopicId := db.nextTopicId + topics.length,
      clock := db.clock + 1 }, plan_id)

/-- SELECT ... FROM study_plans WHERE user_id = ? ORDER BY created_at DESC
LIMIT 1 (created_at values are pairwise distinct in reachable states). -/
def latestPlan (db : DB) (user_id : Nat) : Option PlanRow :=
  (db.study_plans.filter (fun p => p.user_id == user_id)).foldl
    (fun acc r =>
      match acc with
      | none => some r
      | some a => if a.created_at ≤ r.created_at then some r else some a) none

def insertByDay (r : TopicRow) : List TopicRow → List TopicRow
  | [] => [r]
  | x :: xs => if r.day ≤ x.day then r :: x :: xs else x :: insertByDay r xs

/-- ORDER BY day: stable sort on the day column (rows with equal day keep
rowid order, which is what SQLite returns for this table scan). -/
def sortByDay : List TopicRow → List TopicRow
  | [] => []
  | x :: xs => insertByDay x (sortByDay xs)

structure PlanTopicView where
  day : Int
  topic : String
  completed : Bool
  progress : Int
deriving DecidableEq

structure PlanView where
  subject : String
  goal : String
  study_plan : List PlanTopicView
deriving DecidableEq

/-- StudyBuddyDB.get_current_study_plan. -/
def get_current_study_plan (db : DB) (user_id : Nat) : Option PlanView :=
  match latestPlan db user_id with
  | none => none
  | some plan =>
    some ⟨plan.subject, plan.goal,
      (sortByDay (db.topics.filter (fun t => t.plan_id == plan.id))).map
        (fun t => ⟨t.day, t.topic, t.completed, t.progress⟩)⟩

/-- StudyBuddyDB.save_quiz: the questions column stores
json.dumps(questions). -/
def save_quiz (db : DB) (user_id : Nat) (topic : String) (questions : List Question) :
    DB × Nat :=
  let qid := db.nextQuizId
  ({ db with
      quizzes := db.quizzes ++
        [⟨qid, user_id, topic, jsonDumps (questionsToJson questions), db.clock⟩],
      nextQuizId := qid + 1,
      clock := db.clock + 1 }, qid)

def insertByCreatedDesc (r : QuizRow) : List QuizRow → List QuizRow
  | [] => [r]
  | x :: xs => if x.created_at ≤ r.created_at then r :: x :: xs else x :: insertByCreatedDesc r xs

/-- ORDER BY created_at DESC (timestamps are pairwise distinct in
reachable states). -/
def sortByCreatedDesc : List QuizRow → List QuizRow
  | [] => []
  | x :: xs => insertByCreatedDesc x (sortByCreatedDesc xs)

structure QuizView where
  id : Nat
  topic : String
  questions : Option Json
  created_at : Nat
deriving DecidableEq

/-- StudyBuddyDB.get_quizzes; `if topic:` means an empty-string topic is
treated like no topic filter.  The questions column is json.loads-ed;
none models the exception a non-JSON column value would raise (rows
written by save_quiz always decode). -/
def get_quizzes (db : DB) (user_id : Nat) (topic : Option String) : List QuizView :=
  let rows :=
    match topic with
    | some t =>
      if t = "" then db.quizzes.filter (fun q => q.user_id == user_id)
      else db.quizzes.filter (fun q => q.user_id == user_id && q.topic == t)
    | none => db.quizzes.filter (fun q => q.user_id == user_id)
  (sortByCreatedDesc rows).map (fun q => ⟨q.id, q.topic, jsonLoads q.questions, q.created_at⟩)

/-- StudyBuddyDB.update_topic_progress: the UPDATE hits every row of the
most recent plan whose topic column equals topic_name; the boolean is
cursor.rowcount > 0 (SQLite counts every matched row). -/
def update_topic_progress (db : DB) (user_id : Nat) (topic_name : String)
    (progress_value : Int) : DB × Bool :=
  match latestPlan db user_id with
  | none => (db, false)
  | some plan =>
    ({ db with topics := db.topics.map (fun t =>
        if t.plan_id == plan.id && t.topic == topic_name then
          { t with progress := progress_value } else t) },
     decide (0 < (db.topics.filter
       (fun t => t.plan_id == plan.id && t.topic == topic_name)).length))

/-- StudyBuddyDB.mark_topic_complete: same scoping; sets completed = 1 and
progress = 100 on every matched row. -/
def mark_topic_complete (db : DB) (user_id : Nat) (topic_name : String) : DB × Bool :=
  match latestPlan db user_id with
  | none => (db, false)
  | some plan =>
    ({ db with topics := db.topics.map (fun t =>
        if t.plan_id == plan.id && t.topic == topic_name then
          { t with completed := true, progress := 100 } else t) },
     decide (0 < (db.topics.filter
       (fun t => t.plan_id == plan.id && t.topic == topic_name)).length))

inductive ProgressResult where
  | topicProgress (topic : String) (progress : Int)
  | overall (subject : String) (overall_progress : Int)
deriving DecidableEq

/-- Python round() on the exact rational s / n for n > 0: round half to
even (for 0 < n, Int ediv and emod agree with Python floor divmod). -/
def pyRoundDiv (s : Int) (n : Nat) : Int :=
  if 2 * (s % n) < n then s / n
  else if (n : Int) < 2 * (s % n) then s / n + 1
  else if (s / n) % 2 = 0 then s / n else s / n + 1

/-- The AVG branch of get_progress: average over the topics of the given
plan, 0 when the plan has no topics (AVG of no rows is NULL). -/
def overallProgress (db : DB) (plan : PlanRow) : ProgressResult :=
  let ts := db.topics.filter (fun t => t.plan_id == plan.id)
  if ts.length = 0 then .overall plan.subject 0
  else .overall plan.subject (pyRoundDiv ((ts.map (fun t => t.progress)).sum) ts.length)

/-- StudyBuddyDB.get_progress; `if topic:` sends an empty-string topic to
the overall branch. -/
def get_progress (db : DB) (user_id : Nat) (topic : Option String) : Option ProgressResult :=
  match latestPlan db user_id with
  | none => none
  | some plan =>
    match topic with
    | some t =>
      if t = "" then some (overallProgress db plan)
      else
        match (db.topics.filter (fun r => r.plan_id == plan.id && r.topic == t)).head? with
        | some r => some (.topicProgress t r.progress)
        | none => none
    | none => some (overallProgress db plan)

/-! ## The check_quiz_answer tool -/

/-- Inner loop of check_quiz_answer: first question of the quiz whose text
contains the submitted text (Python `in`), returning its answer.  Entries
without string question/answer fields never occur in rows written by
save_quiz (Python would raise on them). -/
def scanQuestions (qt : String) : JsonArr → Option String
  | .nil => none
  | .cons q tl =>
    match jget q "question", jget q "answer" with
    | some (.str qs), some (.str ans) =>
      if pyContains qt qs then some ans else scanQuestions qt tl
    | _, _ => scanQuestions qt tl

/-- Outer loop: quizzes most-recent first; a matched question with an
empty (falsy) answer does not break the outer loop, so the scan moves on
to the next quiz, and an empty final answer reads as not-found. -/
def scanQuizzes (qt : String) : List QuizView → Option (String × String)
  | [] => none
  | quiz :: rest =>
    match (match quiz.questions with
           | some (.arr qs) => scanQuestions qt qs
           | _ => none) with
    | some ans => if ans = "" then scanQuizzes qt rest else some (ans, quiz.topic)
    | none => scanQuizzes qt rest

/-- The check_quiz_answer tool function (module level, operating on the
shared db): parses the submission, finds the stored answer, compares
case-insensitively, and on success bumps the topic progress with the
literal min(100, 50). -/
def check_quiz_answer (db : DB) (answer_submission : String) (username : String) :
    String × DB :=
  match pySplit answer_submission ", Answer: " with
  | [p0, p1] =>
    let question_text := pyReplace p0 "Question: " ""
    let user_answer := p1
    let dbu := get_or_create_user db username
    let quizzes := get_quizzes dbu.1 dbu.2 none
    match scanQuizzes question_text quizzes with
    | none => ("Question not found in quiz history.", dbu.1)
    | some (correct_answer, topic) =>
      if pyLower user_answer = pyLower correct_answer then
        if topic = "" then
          ("Great job! \x27" ++ user_answer ++ "\x27 is correct!", dbu.1)
        else
          ("Great job! \x27" ++ user_answer ++ "\x27 is correct!",
            (update_topic_progress dbu.1 dbu.2 topic (min 100 50)).1)
      else
        ("Not quite. The correct answer is \x27" ++ correct_answer ++
          "\x27. Keep practicing!", dbu.1)
  | _ =>
    ("Invalid format. Please submit in format \x27Question: [question text], " ++
      "Answer: [your answer]\x27", db)

/-! ## The agent control loop

The loop body shared by main (study_buddy_agent.py) and run_conversation
(streamlit_app.py).  The completion provider is modeled as a script of
response bodies consumed one per iteration; the tool registry is an
association list of string-valued functions (the spec treats both as
external collaborators; tool side effects are irrelevant to the loop
claims).  An exception anywhere in the body ends the turn: outcome error
models both the printed error of main and the error final_output of
run_conversation. -/

structure Msg where
  role : String
  content : String
deriving DecidableEq

inductive Outcome where
  | output (content : Option Json)
  | error
  | exhausted
deriving DecidableEq

structure RunResult where
  calls : Nat
  messages : List Msg
  outcome : Outcome
deriving DecidableEq

/-- parsed_response.get("step") == s (a non-string step value never equals
a Python str). -/
def stepIs (p : Json) (s : String) : Bool :=
  match jget p "step" with
  | some (.str v) => v == s
  | _ => false

/-- Python str() of the scalar values that can reach the tool-not-found
message; list and dict tool names raise (unhashable) in the membership
test before any formatting, so containers never reach this function. -/
def pyStrScalar : Option Json → String
  | none => "None"
  | some .null => "None"
  | some (.bool true) => "True"
  | some (.bool false) => "False"
  | some (.num n) => String.mk (intToChars n)
  | some (.str s) => s
  | some (.arr _) => ""
  | some (.obj _) => ""

def lookupTool (tools : List (String × (Option Json → String → String))) (name : String) :
    Option (Option Json → String → String) :=
  (tools.find? (fun t => t.1 == name)).map (fun t => t.2)

/-- The observation message appended after an action step. -/
def observeMsg (output : String) : Msg :=
  ⟨"assistant",
    jsonDumps (.obj (.cons "step" (.str "observe") (.cons "output" (.str output) .nil)))⟩

def bump (r : RunResult) : RunResult := { r with calls := r.calls + 1 }

/-- One turn of the agent loop.  Per iteration: one provider call, parse,
append json.dumps(parsed) as an assistant message, then classify the step.
Unrecognized step values fall through every branch and loop again. -/
def runLoop (tools : List (String × (Option Json → String → String))) (username : String) :
    List String → List Msg → RunResult
  | [], msgs => ⟨0, msgs, .exhausted⟩
  | body :: script, msgs =>
    match jsonLoads body with
    | none => ⟨1, msgs, .error⟩
    | some parsed =>
      let msgs2 := msgs ++ [⟨"assistant", jsonDumps parsed⟩]
      match parsed with
      | .obj _ =>
        if stepIs parsed "plan" then
          bump (runLoop tools username script msgs2)
        else if stepIs parsed "action" then
          match jget parsed "function" with
          | some (.arr _) => ⟨1, msgs2, .error⟩
          | some (.obj _) => ⟨1, msgs2, .error⟩
          | some (.str name) =>
            (match lookupTool tools name with
             | some f =>
               bump (runLoop tools username script
                 (msgs2 ++ [observeMsg (f (jget parsed "input") username)]))
             | none =>
               bump (runLoop tools username script
                 (msgs2 ++ [observeMsg ("Tool \x27" ++ name ++ "\x27 not found")])))
          | fn =>
            bump (runLoop tools username script
              (msgs2 ++ [observeMsg ("Tool \x27" ++ pyStrScalar fn ++ "\x27 not found")]))
        else if stepIs parsed "output" then
          ⟨1, msgs2, .output (jget parsed "content")⟩
        else
          bump (runLoop tools username script msgs2)
      | _ => ⟨1, msgs2, .error⟩

/-! ## Store lemmas -/

theorem sortByCreatedDesc_append_max : ∀ (l : List QuizRow) (r : QuizRow),
    (∀ x ∈ l, x.created_at < r.created_at) →
    sortByCreatedDesc (l ++ [r]) = r :: sortByCreatedDesc l
  | [], r, _ => rfl
  | x :: l, r, h => by
    have hx : x.created_at < r.created_at := h x (by simp)
    simp only [List.cons_append, sortByCreatedDesc, List.append_eq]
    rw [sortByCreatedDesc_append_max l r (fun y hy => h y (by simp [hy]))]
    simp only [insertByCreatedDesc]
    rw [if_neg (by omega : ¬ r.created_at ≤ x.created_at)]

/-- The foldl that implements ORDER BY created_at DESC LIMIT 1 returns an
element of its input (or the accumulator). -/
theorem latestFold_mem : ∀ (l : List PlanRow) (acc : Option PlanRow) (a : PlanRow),
    l.foldl (fun acc r =>
      match acc with
      | none => some r
      | some a => if a.created_at ≤ r.created_at then some r else some a) acc = some a →
    acc = some a ∨ a ∈ l
  | [], acc, a, h => Or.inl h
  | x :: l, acc, a, h => by
    simp only [List.foldl_cons] at h
    rcases latestFold_mem l _ a h with h2 | h2
    · cases acc with
      | none => simp at h2; simp [h2]
      | some b =>
        simp only [] at h2
        by_cases hle : b.created_at ≤ x.created_at
        · rw [if_pos hle] at h2
          simp at h2; simp [h2]
        · rw [if_neg hle] at h2
          simp at h2; simp [h2]
    · simp [h2]

theorem latestPlan_append_max (db : DB) (uid : Nat) (r : PlanRow)
    (hr : r.user_id = uid)
    (hmax : ∀ p ∈ db.study_plans, p.created_at < r.created_at) :
    latestPlan { db with study_plans := db.study_plans ++ [r] } uid = some r := by
  unfold latestPlan
  simp only []
  rw [List.filter_append]
  have hrf : List.filter (fun p => p.user_id == uid) [r] = [r] := by
    simp [List.filter, hr]
  rw [hrf, List.foldl_append]
  cases hacc : (db.study_plans.filter (fun p => p.user_id == uid)).foldl
      (fun acc r =>
        match acc with
        | none => some r
        | some a => if a.created_at ≤ r.created_at then some r else some a) none with
  | none => simp
  | some a =>
    rcases latestFold_mem _ _ _ hacc with h | h
    · exact absurd h (by simp)
    · have := hmax a (List.mem_of_mem_filter h)
      simp [Nat.le_of_lt this]

def insertViewByDay (r : PlanTopicView) : List PlanTopicView → List PlanTopicView
  | [] => [r]
  | x :: xs => if r.day ≤ x.day then r :: x :: xs else x :: insertViewByDay r xs

/-- The day-ordering of the rows seen through the view fields. -/
def sortViewByDay : List PlanTopicView → List PlanTopicView
  | [] => []
  | x :: xs => insertViewByDay x (sortViewByDay xs)

def topicView (t : TopicRow) : PlanTopicView := ⟨t.day, t.topic, t.completed, t.progress⟩

theorem insertByDay_map (r : TopicRow) : ∀ l : List TopicRow,
    (insertByDay r l).map topicView = insertViewByDay (topicView r) (l.map topicView)
  | [] => rfl
  | x :: xs => by
    simp only [insertByDay, insertViewByDay, topicView]
    by_cases h : r.day ≤ x.day
    · simp [h, topicView]
    · simp [h, insertByDay_map r xs, topicView]

theorem sortByDay_map : ∀ l : List TopicRow,
    (sortByDay l).map topicView = sortViewByDay (l.map topicView)
  | [] => rfl
  | x :: xs => by
    simp only [sortByDay, sortViewByDay, List.map_cons]
    rw [insertByDay_map, sortByDay_map xs]

theorem sortViewByDay_sorted : ∀ l : List PlanTopicView,
    List.Pairwise (fun a b => a.day ≤ b.day) l → sortViewByDay l = l
  | [], _ => rfl
  | x :: xs, h => by
    have h1 := List.pairwise_cons.mp h
    simp only [sortViewByDay]
    rw [sortViewByDay_sorted xs h1.2]
    cases xs with
    | nil => rfl
    | cons y ys => simp [insertViewByDay, h1.1 y (by simp)]

/-- The rounded average is within half a unit of the exact average:
it is a nearest integer to s / n. -/
theorem pyRoundDiv_half (s : Int) (n : Nat) (hn : 0 < n) :
    2 * (pyRoundDiv s n * n - s).natAbs ≤ n := by
  have hne : (n : Int) ≠ 0 := by exact_mod_cast hn.ne'
  have h1 : (n : Int) * (s / n) + s % n = s := Int.ediv_add_emod s n
  have h2 : 0 ≤ s % n := Int.emod_nonneg s hne
  have h3 : s % n < n := Int.emod_lt_of_pos s (by exact_mod_cast hn)
  unfold pyRoundDiv
  split_ifs with c1 c2 c3
  · have hq : s / n * n - s = -(s % n) := by linear_combination h1
    rw [hq]; omega
  · have hq : (s / n + 1) * n - s = n - s % n := by linear_combination h1
    rw [hq]; omega
  · have hq : s / n * n - s = -(s % n) := by linear_combination h1
    rw [hq]; omega
  · have hq : (s / n + 1) * n - s = n - s % n := by linear_combination h1
    rw [hq]; omega

theorem filter_length_pos_iff {α : Type} (p : α → Bool) (l : List α) :
    decide (0 < (l.filter p).length) = true ↔ ∃ r ∈ l, p r = true := by
  rw [decide_eq_true_eq]
  rw [List.length_pos]
  constructor
  · intro h
    obtain ⟨r, hr⟩ := List.exists_mem_of_ne_nil _ h
    exact ⟨r, List.mem_of_mem_filter hr, List.of_mem_filter hr⟩
  · intro ⟨r, hm, hp⟩
    intro hnil
    have := List.mem_filter.mpr ⟨hm, hp⟩
    rw [hnil] at this
    exact absurd this (List.not_mem_nil r)

/-! ## Claims about the agent loop -/

/-- C1 counterexample: a response that is valid JSON with the unrecognized
step value "banana" does not terminate the turn: the loop falls through
every branch, calls the provider again (two calls in total), and the turn
ends with the second response's output — contradicting "terminates the
current turn immediately with an error result and makes no further
provider calls". -/
theorem claim_C1_counterexample :
    (runLoop [] "user"
      [jsonDumps (.obj (.cons "step" (.str "banana") .nil)),
       jsonDumps (.obj (.cons "step" (.str "output") (.cons "content" (.str "ok") .nil)))]
      []).calls = 2 ∧
    (runLoop [] "user"
      [jsonDumps (.obj (.cons "step" (.str "banana") .nil)),
       jsonDumps (.obj (.cons "step" (.str "output") (.cons "content" (.str "ok") .nil)))]
      []).outcome = Outcome.output (some (.str "ok")) ∧
    Outcome.output (some (.str "ok")) ≠ Outcome.error := by
  refine ⟨by decide, by decide, by decide⟩

/-- C1 (amended): a provider response whose body is not valid JSON
terminates the turn immediately with an error result, after exactly the
one provider call that produced it (the history is left unchanged); a
response that parses to an object with an unrecognized step value does
not terminate: it is appended to the history and the loop makes another
provider call. -/
theorem claim_C1_amended (tools : List (String × (Option Json → String → String)))
    (username body : String) (script : List String) (msgs : List Msg) :
    (jsonLoads body = none →
      runLoop tools username (body :: script) msgs = ⟨1, msgs, .error⟩) ∧
    (∀ parsed : Json, jsonLoads body = some parsed → (∃ fs, parsed = Json.obj fs) →
      stepIs parsed "plan" = false → stepIs parsed "action" = false →
      stepIs parsed "output" = false →
      runLoop tools username (body :: script) msgs =
        bump (runLoop tools username script (msgs ++ [⟨"assistant", jsonDumps parsed⟩]))) := by
  constructor
  · intro hnone
    simp only [runLoop, hnone]
  · intro parsed hsome hobj hplan haction houtput
    obtain ⟨fs, hfs⟩ := hobj
    subst hfs
    simp only [runLoop, hsome, hplan, haction, houtput]
    simp

/-- Witness for C1 (amended) at concrete inputs: "not json" fails to
parse and gives one call and an error; step "banana" falls through and
the loop continues into the rest of the script. -/
theorem claim_C1_amended_witness :
    (jsonLoads "not json" = none ∧
      runLoop [] "user" ["not json"] [] = ⟨1, [], .error⟩) ∧
    (jsonLoads (jsonDumps (.obj (.cons "step" (.str "banana") .nil))) =
        some (.obj (.cons "step" (.str "banana") .nil)) ∧
      runLoop [] "user" [jsonDumps (.obj (.cons "step" (.str "banana") .nil))] [] =
        bump (runLoop [] "user" []
          [⟨"assistant", jsonDumps (.obj (.cons "step" (.str "banana") .nil))⟩])) := by
  refine ⟨⟨by decide, (claim_C1_amended [] "user" "not json" [] []).1 (by decide)⟩,
    ⟨by decide, (claim_C1_amended [] "user" _ [] []).2 _ (by decide)
      ⟨_, rfl⟩ (by decide) (by decide) (by decide)⟩⟩

/-- C2: an action step naming a function absent from the registry does
not end the turn with an error: the loop appends an observation message
containing Tool <name> not found and continues, and a following output
step terminates the turn normally with that content. -/
theorem claim_C2 (tools : List (String × (Option Json → String → String)))
    (username name input content : String) (msgs : List Msg)
    (hmiss : lookupTool tools name = none) :
    runLoop tools username
      [jsonDumps (.obj (.cons "step" (.str "action")
          (.cons "function" (.str name) (.cons "input" (.str input) .nil)))),
       jsonDumps (.obj (.cons "step" (.str "output")
          (.cons "content" (.str content) .nil)))]
      msgs =
    ⟨2,
     msgs ++ [⟨"assistant", jsonDumps (.obj (.cons "step" (.str "action")
          (.cons "function" (.str name) (.cons "input" (.str input) .nil))))⟩,
        observeMsg ("Tool \x27" ++ name ++ "\x27 not found"),
        ⟨"assistant", jsonDumps (.obj (.cons "step" (.str "output")
          (.cons "content" (.str content) .nil)))⟩],
     .output (some (.str content))⟩ := by
  have h1 : jsonLoads (jsonDumps (.obj (.cons "step" (.str "action")
      (.cons "function" (.str name) (.cons "input" (.str input) .nil))))) =
      some (.obj (.cons "step" (.str "action")
        (.cons "function" (.str name) (.cons "input" (.str input) .nil)))) :=
    jsonLoads_dumps _ (by simp +decide [wfJ, wfO, wfA, memKey, keysO])
  have h2 : jsonLoads (jsonDumps (.obj (.cons "step" (.str "output")
      (.cons "content" (.str content) .nil)))) =
      some (.obj (.cons "step" (.str "output") (.cons "content" (.str content) .nil))) :=
    jsonLoads_dumps _ (by simp +decide [wfJ, wfO, wfA, memKey, keysO])
  simp only [runLoop, h1, h2]
  simp +decide [stepIs, jget, objLookup, hmiss, bump, List.append_assoc]

/-- Witness for C2: a registry without "nonexistent_tool" and the two-step
script; C2 gives the full run result. -/
theorem claim_C2_witness :
    lookupTool [("generate_quiz", fun _ _ => "quiz text")] "nonexistent_tool" = none ∧
    runLoop [("generate_quiz", fun _ _ => "quiz text")] "user"
      [jsonDumps (.obj (.cons "step" (.str "action")
          (.cons "function" (.str "nonexistent_tool") (.cons "input" (.str "x") .nil)))),
       jsonDumps (.obj (.cons "step" (.str "output")
          (.cons "content" (.str "done") .nil)))]
      [] =
    ⟨2,
     [⟨"assistant", jsonDumps (.obj (.cons "step" (.str "action")
          (.cons "function" (.str "nonexistent_tool") (.cons "input" (.str "x") .nil))))⟩,
      observeMsg ("Tool \x27nonexistent_tool\x27 not found"),
      ⟨"assistant", jsonDumps (.obj (.cons "step" (.str "output")
          (.cons "content" (.str "done") .nil)))⟩],
     .output (some (.str "done"))⟩ := by
  refine ⟨rfl, ?_⟩
  have h := claim_C2 [("generate_quiz", fun _ _ => "quiz text")] "user"
    "nonexistent_tool" "x" "done" [] rfl
  simpa using h

/-- C3 counterexample: the loop does not append the provider body
verbatim.  For the compact body \x7b"step":"output","content":"hi"\x7d
(no spaces) the parse succeeds, but the appended history entry is the
canonical re-serialization with separator spaces, which differs
character-for-character from the body. -/
theorem claim_C3_counterexample :
    (runLoop [] "user" ["\x7b\"step\":\"output\",\"content\":\"hi\"\x7d"] []).messages =
      [⟨"assistant", "\x7b\"step\": \"output\", \"content\": \"hi\"\x7d"⟩] ∧
    "\x7b\"step\": \"output\", \"content\": \"hi\"\x7d" ≠
      "\x7b\"step\":\"output\",\"content\":\"hi\"\x7d" := by
  refine ⟨by decide, by decide⟩

theorem bump_messages (r : RunResult) : (bump r).messages = r.messages := rfl

/-- Every iteration only appends to the message history. -/
theorem runLoop_monotone (script : List String) :
    ∀ (tools : List (String × (Option Json → String → String))) (u : String) (msgs : List Msg),
    msgs <+: (runLoop tools u script msgs).messages := by
  induction script with
  | nil => intro tools u msgs; simp [runLoop]
  | cons body script ih =>
    intro tools u msgs
    rw [runLoop]
    repeat' split
    all_goals
      first
        | (rw [bump_messages]
           refine List.IsPrefix.trans ?_ (ih tools u _)
           try rw [List.append_assoc]
           exact List.prefix_append _ _)
        | simp [List.prefix_append, List.append_assoc]

/-- C3 (amended): for every successfully parsed provider response, the
loop appends json.dumps of the parsed value — the canonical
re-serialization, which is JSON-equivalent to the body but
character-for-character identical to it only when the body is already in
canonical form — as the next assistant history entry. -/
theorem claim_C3_amended (tools : List (String × (Option Json → String → String)))
    (u body : String) (script : List String) (msgs : List Msg) (parsed : Json)
    (h : jsonLoads body = some parsed) :
    (msgs ++ [⟨"assistant", jsonDumps parsed⟩]) <+:
      (runLoop tools u (body :: script) msgs).messages := by
  rw [runLoop, h]
  simp only []
  cases parsed with
  | obj fs =>
    simp only []
    repeat' split
    all_goals
      first
        | (rw [bump_messages]
           refine List.IsPrefix.trans ?_ (runLoop_monotone script tools u _)
           first
             | exact List.prefix_append _ _
             | exact List.prefix_refl _)
        | simp
  | null => simp
  | bool b => simp
  | num n => simp
  | str s => simp
  | arr xs => simp

/-- Witness for C3 (amended) on the compact body: the appended entry is
the canonical re-serialization. -/
theorem claim_C3_amended_witness :
    jsonLoads "\x7b\"step\":\"output\",\"content\":\"hi\"\x7d" =
      some (.obj (.cons "step" (.str "output") (.cons "content" (.str "hi") .nil))) ∧
    ([] ++ [⟨"assistant", jsonDumps (.obj (.cons "step" (.str "output")
        (.cons "content" (.str "hi") .nil)))⟩] : List Msg) <+:
      (runLoop [] "user" ["\x7b\"step\":\"output\",\"content\":\"hi\"\x7d"] []).messages :=
  ⟨by decide, claim_C3_amended [] "user" _ [] [] _ (by decide)⟩

/-- C4: save/get round trip.  After save_quiz the quiz list returned by
get_quizzes — whether queried with no topic or with the saved topic —
starts with the saved quiz: same id, topic, timestamp, and a questions
value that decodes back to exactly the saved question records (same
question text, option strings and answer string), with the stored array
length equal to the number of saved questions. -/
theorem claim_C4 (db : DB) (uid : Nat) (topic : String) (qs : List Question)
    (tq : Option String) (hwf : db.wf) (htq : tq = none ∨ tq = some topic) :
    (get_quizzes (save_quiz db uid topic qs).1 uid tq).head? =
      some ⟨db.nextQuizId, topic, some (questionsToJson qs), db.clock⟩ ∧
    questionsOfJson (questionsToJson qs) = some qs ∧
    jsonArrLen (jarrOfQuestions qs) = qs.length := by
  refine ⟨?_, questionsOfJson_toJson qs, jsonArrLen_questions qs⟩
  have hload : jsonLoads (jsonDumps (questionsToJson qs)) = some (questionsToJson qs) :=
    jsonLoads_dumps _ (wf_questionsToJson qs)
  have hclock : ∀ x ∈ db.quizzes, x.created_at < db.clock := fun x hx => (hwf.2.1 x hx).1
  have core : ∀ p : QuizRow → Bool,
      p (QuizRow.mk db.nextQuizId uid topic (jsonDumps (questionsToJson qs)) db.clock) = true →
      ((sortByCreatedDesc ((db.quizzes ++
          [QuizRow.mk db.nextQuizId uid topic (jsonDumps (questionsToJson qs))
            db.clock]).filter p)).map
        (fun q => (⟨q.id, q.topic, jsonLoads q.questions, q.created_at⟩ : QuizView))).head? =
      some ⟨db.nextQuizId, topic, some (questionsToJson qs), db.clock⟩ := by
    intro p hp
    rw [List.filter_append]
    have h1 : List.filter p
        [QuizRow.mk db.nextQuizId uid topic (jsonDumps (questionsToJson qs)) db.clock] =
        [QuizRow.mk db.nextQuizId uid topic (jsonDumps (questionsToJson qs)) db.clock] := by
      simp [List.filter, hp]
    rw [h1, sortByCreatedDesc_append_max _ _
      (fun x hx => hclock x (List.mem_of_mem_filter hx))]
    simp [hload]
  rcases htq with rfl | rfl
  · unfold save_quiz get_quizzes
    simp only []
    exact core _ (by simp)
  · unfold save_quiz get_quizzes
    simp only []
    by_cases ht : topic = ""
    · rw [if_pos ht]
      exact core _ (by simp)
    · rw [if_neg ht]
      exact core _ (by simp)

/-- Witness for C4: one question saved into the empty store and read back
with no topic filter. -/
theorem claim_C4_witness :
    emptyDB.wf ∧
    ((get_quizzes (save_quiz emptyDB 1 "Math" [⟨"Q1", ["a", "b"], "a"⟩]).1 1 none).head? =
        some ⟨1, "Math", some (questionsToJson [⟨"Q1", ["a", "b"], "a"⟩]), 0⟩ ∧
      questionsOfJson (questionsToJson [⟨"Q1", ["a", "b"], "a"⟩]) =
        some [⟨"Q1", ["a", "b"], "a"⟩] ∧
      jsonArrLen (jarrOfQuestions [⟨"Q1", ["a", "b"], "a"⟩]) =
        [(⟨"Q1", ["a", "b"], "a"⟩ : Question)].length) :=
  ⟨by decide, claim_C4 emptyDB 1 "Math" _ none (by decide) (Or.inl rfl)⟩

/-- C5: plan creation round trip.  Every topic row inserted by
create_study_plan carries progress 0 regardless of the submitted
completed flag, and get_current_study_plan immediately afterwards
returns exactly the submitted day/topic/completed records arranged in
ascending day order (so when the submission is already day-ordered the
returned list is identical to it). -/
theorem claim_C5 (db : DB) (uid : Nat) (subject goal : String) (ts : List TopicIn)
    (hwf : db.wf) :
    (∀ t ∈ (create_study_plan db uid subject goal ts).1.topics,
        t ∉ db.topics → t.progress = 0) ∧
    get_current_study_plan (create_study_plan db uid subject goal ts).1 uid =
      some ⟨subject, goal,
        sortViewByDay (ts.map (fun t => ⟨t.day, t.topic, t.completed, 0⟩))⟩ ∧
    (List.Pairwise (fun a b => a.day ≤ b.day)
        (ts.map (fun t => (⟨t.day, t.topic, t.completed, 0⟩ : PlanTopicView))) →
      sortViewByDay (ts.map (fun t => (⟨t.day, t.topic, t.completed, 0⟩ : PlanTopicView))) =
        ts.map (fun t => ⟨t.day, t.topic, t.completed, 0⟩)) := by
  have hplanmax : ∀ p ∈ db.study_plans, p.created_at < db.clock := fun p hp => (hwf.1 p hp).1
  have htop : ∀ t ∈ db.topics, t.plan_id < db.nextPlanId := hwf.2.2.1
  refine ⟨?_, ?_, sortViewByDay_sorted _⟩
  · intro t ht hnot
    simp only [create_study_plan] at ht
    rw [List.mem_append] at ht
    rcases ht with h | h
    · exact absurd h hnot
    · obtain ⟨it, hit, rfl⟩ := List.mem_map.mp h
      rfl
  · have hlp : latestPlan (create_study_plan db uid subject goal ts).1 uid =
        some ⟨db.nextPlanId, uid, subject, goal, db.clock⟩ :=
      latestPlan_append_max
        { db with
            topics := db.topics ++ ts.enum.map (fun it =>
              TopicRow.mk (db.nextTopicId + it.1) db.nextPlanId it.2.day it.2.topic
                it.2.completed 0),
            nextPlanId := db.nextPlanId + 1,
            nextTopicId := db.nextTopicId + ts.length,
            clock := db.clock + 1 }
        uid ⟨db.nextPlanId, uid, subject, goal, db.clock⟩ rfl hplanmax
    have hfl : (create_study_plan db uid subject goal ts).1.topics.filter
        (fun t => t.plan_id == db.nextPlanId) =
        ts.enum.map (fun it => TopicRow.mk (db.nextTopicId + it.1) db.nextPlanId it.2.day
          it.2.topic it.2.completed 0) := by
      simp only [create_study_plan]
      rw [List.filter_append]
      have h1 : db.topics.filter (fun t => t.plan_id == db.nextPlanId) = [] := by
        rw [List.filter_eq_nil_iff]
        intro t ht
        have := htop t ht
        simp only [beq_iff_eq]
        omega
      have h2 : (ts.enum.map (fun it => TopicRow.mk (db.nextTopicId + it.1) db.nextPlanId
          it.2.day it.2.topic it.2.completed 0)).filter
          (fun t => t.plan_id == db.nextPlanId) =
          ts.enum.map (fun it => TopicRow.mk (db.nextTopicId + it.1) db.nextPlanId
            it.2.day it.2.topic it.2.completed 0) := by
        rw [List.filter_eq_self]
        intro t ht
        obtain ⟨it, hit, rfl⟩ := List.mem_map.mp ht
        simp
      rw [h1, h2, List.nil_append]
    unfold get_current_study_plan
    rw [hlp]
    simp only []
    rw [hfl]
    have hview : (fun t : TopicRow =>
        (⟨t.day, t.topic, t.completed, t.progress⟩ : PlanTopicView)) = topicView := rfl
    rw [hview, sortByDay_map]
    have hmm : (ts.enum.map (fun it => TopicRow.mk (db.nextTopicId + it.1) db.nextPlanId
        it.2.day it.2.topic it.2.completed 0)).map topicView =
        ts.map (fun t => (⟨t.day, t.topic, t.completed, 0⟩ : PlanTopicView)) := by
      rw [List.map_map]
      have hcomp : topicView ∘ (fun it : Nat × TopicIn => TopicRow.mk (db.nextTopicId + it.1)
          db.nextPlanId it.2.day it.2.topic it.2.completed 0) =
          (fun t : TopicIn => (⟨t.day, t.topic, t.completed, 0⟩ : PlanTopicView)) ∘
            Prod.snd := rfl
      rw [hcomp, ← List.map_map, List.enum_map_snd]
    rw [hmm]

/-- Witness for C5: a two-topic plan (second topic submitted with
completed = true) created in the empty store. -/
theorem claim_C5_witness :
    emptyDB.wf ∧
    ((∀ t ∈ (create_study_plan emptyDB 1 "Math" "pass"
          [⟨1, "Algebra", false⟩, ⟨2, "Geometry", true⟩]).1.topics,
        t ∉ emptyDB.topics → t.progress = 0) ∧
      get_current_study_plan (create_study_plan emptyDB 1 "Math" "pass"
          [⟨1, "Algebra", false⟩, ⟨2, "Geometry", true⟩]).1 1 =
        some ⟨"Math", "pass",
          sortViewByDay (([⟨1, "Algebra", false⟩, ⟨2, "Geometry", true⟩] : List TopicIn).map
            (fun t => ⟨t.day, t.topic, t.completed, 0⟩))⟩ ∧
      (List.Pairwise (fun a b => a.day ≤ b.day)
          (([⟨1, "Algebra", false⟩, ⟨2, "Geometry", true⟩] : List TopicIn).map
            (fun t : TopicIn => (⟨t.day, t.topic, t.completed, 0⟩ : PlanTopicView))) →
        sortViewByDay (([⟨1, "Algebra", false⟩, ⟨2, "Geometry", true⟩] : List TopicIn).map
            (fun t : TopicIn => (⟨t.day, t.topic, t.completed, 0⟩ : PlanTopicView))) =
          ([⟨1, "Algebra", false⟩, ⟨2, "Geometry", true⟩] : List TopicIn).map
            (fun t => ⟨t.day, t.topic, t.completed, 0⟩))) :=
  ⟨by decide, claim_C5 emptyDB 1 "Math" "pass"
    [⟨1, "Algebra", false⟩, ⟨2, "Geometry", true⟩] (by decide)⟩

/-- C6: get_progress with no topic argument averages the progress values
of the most recent plan only: it returns the sum of that plan's topic
progress values divided by their count, rounded to a nearest integer
(within half a unit of the exact mean), and for a plan whose topics
carry progress values [0, 100] the overall progress is 50. -/
theorem claim_C6 (db : DB) (uid : Nat) (plan : PlanRow)
    (hlp : latestPlan db uid = some plan)
    (hne : (db.topics.filter (fun t => t.plan_id == plan.id)).length ≠ 0) :
    get_progress db uid none =
      some (.overall plan.subject
        (pyRoundDiv ((db.topics.filter (fun t => t.plan_id == plan.id)).map
            (fun t => t.progress)).sum
          (db.topics.filter (fun t => t.plan_id == plan.id)).length)) ∧
    2 * ((pyRoundDiv ((db.topics.filter (fun t => t.plan_id == plan.id)).map
            (fun t => t.progress)).sum
          (db.topics.filter (fun t => t.plan_id == plan.id)).length) *
        ((db.topics.filter (fun t => t.plan_id == plan.id)).length : Int) -
        ((db.topics.filter (fun t => t.plan_id == plan.id)).map
          (fun t => t.progress)).sum).natAbs ≤
      (db.topics.filter (fun t => t.plan_id == plan.id)).length ∧
    ((db.topics.filter (fun t => t.plan_id == plan.id)).map (fun t => t.progress) =
        [0, 100] →
      get_progress db uid none = some (.overall plan.subject 50)) := by
  have h1 : get_progress db uid none =
      some (.overall plan.subject
        (pyRoundDiv ((db.topics.filter (fun t => t.plan_id == plan.id)).map
            (fun t => t.progress)).sum
          (db.topics.filter (fun t => t.plan_id == plan.id)).length)) := by
    unfold get_progress
    rw [hlp]
    simp only []
    unfold overallProgress
    simp only []
    rw [if_neg hne]
  refine ⟨h1, pyRoundDiv_half _ _ (Nat.pos_of_ne_zero hne), ?_⟩
  intro hm
  rw [h1]
  have hlen : (db.topics.filter (fun t => t.plan_id == plan.id)).length = 2 := by
    have := congrArg List.length hm
    simpa using this
  rw [hm, hlen]
  have h50 : pyRoundDiv ([(0 : Int), 100].sum) 2 = 50 := by decide
  rw [h50]

/-- Witness for C6 on a store whose single plan has topics at progress
0 and 100: the reported overall progress is 50. -/
theorem claim_C6_witness :
    latestPlan (⟨[⟨1, "u"⟩], [⟨1, 1, "Math", "g", 0⟩],
        [⟨1, 1, 1, "A", false, 0⟩, ⟨2, 1, 2, "B", true, 100⟩], [], 2, 2, 3, 1, 1⟩ : DB) 1 =
      some ⟨1, 1, "Math", "g", 0⟩ ∧
    ((⟨[⟨1, "u"⟩], [⟨1, 1, "Math", "g", 0⟩],
        [⟨1, 1, 1, "A", false, 0⟩, ⟨2, 1, 2, "B", true, 100⟩], [], 2, 2, 3, 1, 1⟩ : DB).topics.filter
      (fun t => t.plan_id == (⟨1, 1, "Math", "g", 0⟩ : PlanRow).id)).length ≠ 0 ∧
    get_progress (⟨[⟨1, "u"⟩], [⟨1, 1, "Math", "g", 0⟩],
        [⟨1, 1, 1, "A", false, 0⟩, ⟨2, 1, 2, "B", true, 100⟩], [], 2, 2, 3, 1, 1⟩ : DB) 1 none =
      some (.overall "Math" 50) :=
  ⟨by decide, by decide,
    by
      have h := claim_C6 (⟨[⟨1, "u"⟩], [⟨1, 1, "Math", "g", 0⟩],
          [⟨1, 1, 1, "A", false, 0⟩, ⟨2, 1, 2, "B", true, 100⟩], [], 2, 2, 3, 1, 1⟩ : DB) 1
        ⟨1, 1, "Math", "g", 0⟩ (by decide) (by decide)
      exact h.2.2 (by decide)⟩

/-- C7 counterexample: with two identically-named topics in the current
plan, update_topic_progress and mark_topic_complete change BOTH rows,
not only the first match — the second row does not keep its old value. -/
theorem claim_C7_counterexample :
    (update_topic_progress (⟨[⟨1, "u"⟩], [⟨1, 1, "Math", "g", 0⟩],
        [⟨1, 1, 1, "A", false, 10⟩, ⟨2, 1, 2, "A", false, 20⟩],
        [], 2, 2, 3, 1, 1⟩ : DB) 1 "A" 70).1.topics =
      [⟨1, 1, 1, "A", false, 70⟩, ⟨2, 1, 2, "A", false, 70⟩] ∧
    (⟨2, 1, 2, "A", false, 70⟩ : TopicRow) ≠ ⟨2, 1, 2, "A", false, 20⟩ ∧
    (mark_topic_complete (⟨[⟨1, "u"⟩], [⟨1, 1, "Math", "g", 0⟩],
        [⟨1, 1, 1, "A", false, 10⟩, ⟨2, 1, 2, "A", false, 20⟩],
        [], 2, 2, 3, 1, 1⟩ : DB) 1 "A").1.topics =
      [⟨1, 1, 1, "A", true, 100⟩, ⟨2, 1, 2, "A", true, 100⟩] := by
  refine ⟨by decide, by decide, by decide⟩

/-- C7 (amended): both writers hit EVERY row of the most recent plan
whose topic column equals the given name — each matching row is
rewritten (progress := v, resp. completed := true and progress := 100)
and every other row is untouched — and the returned boolean is true
exactly when at least one row matched. -/
theorem claim_C7_amended (db : DB) (uid : Nat) (name : String) (v : Int) (plan : PlanRow)
    (hlp : latestPlan db uid = some plan) :
    (update_topic_progress db uid name v).1.topics =
      db.topics.map (fun t => if t.plan_id == plan.id && t.topic == name then
        { t with progress := v } else t) ∧
    ((update_topic_progress db uid name v).2 = true ↔
      ∃ t ∈ db.topics, (t.plan_id == plan.id && t.topic == name) = true) ∧
    (mark_topic_complete db uid name).1.topics =
      db.topics.map (fun t => if t.plan_id == plan.id && t.topic == name then
        { t with completed := true, progress := 100 } else t) ∧
    ((mark_topic_complete db uid name).2 = true ↔
      ∃ t ∈ db.topics, (t.plan_id == plan.id && t.topic == name) = true) := by
  unfold update_topic_progress mark_topic_complete
  rw [hlp]
  simp only []
  exact ⟨trivial, filter_length_pos_iff _ _, trivial, filter_length_pos_iff _ _⟩

/-- Witness for C7 (amended) on the two-identically-named-topics store. -/
theorem claim_C7_amended_witness :
    latestPlan (⟨[⟨1, "u"⟩], [⟨1, 1, "Math", "g", 0⟩],
        [⟨1, 1, 1, "A", false, 10⟩, ⟨2, 1, 2, "A", false, 20⟩],
        [], 2, 2, 3, 1, 1⟩ : DB) 1 = some ⟨1, 1, "Math", "g", 0⟩ ∧
    ((update_topic_progress (⟨[⟨1, "u"⟩], [⟨1, 1, "Math", "g", 0⟩],
        [⟨1, 1, 1, "A", false, 10⟩, ⟨2, 1, 2, "A", false, 20⟩],
        [], 2, 2, 3, 1, 1⟩ : DB) 1 "A" 70).1.topics =
      (⟨[⟨1, "u"⟩], [⟨1, 1, "Math", "g", 0⟩],
        [⟨1, 1, 1, "A", false, 10⟩, ⟨2, 1, 2, "A", false, 20⟩],
        [], 2, 2, 3, 1, 1⟩ : DB).topics.map
        (fun t => if t.plan_id == (⟨1, 1, "Math", "g", 0⟩ : PlanRow).id && t.topic == "A" then
          { t with progress := 70 } else t) ∧
    ((update_topic_progress (⟨[⟨1, "u"⟩], [⟨1, 1, "Math", "g", 0⟩],
        [⟨1, 1, 1, "A", false, 10⟩, ⟨2, 1, 2, "A", false, 20⟩],
        [], 2, 2, 3, 1, 1⟩ : DB) 1 "A" 70).2 = true ↔
      ∃ t ∈ (⟨[⟨1, "u"⟩], [⟨1, 1, "Math", "g", 0⟩],
        [⟨1, 1, 1, "A", false, 10⟩, ⟨2, 1, 2, "A", false, 20⟩],
        [], 2, 2, 3, 1, 1⟩ : DB).topics,
        (t.plan_id == (⟨1, 1, "Math", "g", 0⟩ : PlanRow).id && t.topic == "A") = true) ∧
    (mark_topic_complete (⟨[⟨1, "u"⟩], [⟨1, 1, "Math", "g", 0⟩],
        [⟨1, 1, 1, "A", false, 10⟩, ⟨2, 1, 2, "A", false, 20⟩],
        [], 2, 2, 3, 1, 1⟩ : DB) 1 "A").1.topics =
      (⟨[⟨1, "u"⟩], [⟨1, 1, "Math", "g", 0⟩],
        [⟨1, 1, 1, "A", false, 10⟩, ⟨2, 1, 2, "A", false, 20⟩],
        [], 2, 2, 3, 1, 1⟩ : DB).topics.map
        (fun t => if t.plan_id == (⟨1, 1, "Math", "g", 0⟩ : PlanRow).id && t.topic == "A" then
          { t with completed := true, progress := 100 } else t) ∧
    ((mark_topic_complete (⟨[⟨1, "u"⟩], [⟨1, 1, "Math", "g", 0⟩],
        [⟨1, 1, 1, "A", false, 10⟩, ⟨2, 1, 2, "A", false, 20⟩],
        [], 2, 2, 3, 1, 1⟩ : DB) 1 "A").2 = true ↔
      ∃ t ∈ (⟨[⟨1, "u"⟩], [⟨1, 1, "Math", "g", 0⟩],
        [⟨1, 1, 1, "A", false, 10⟩, ⟨2, 1, 2, "A", false, 20⟩],
        [], 2, 2, 3, 1, 1⟩ : DB).topics,
        (t.plan_id == (⟨1, 1, "Math", "g", 0⟩ : PlanRow).id && t.topic == "A") = true)) :=
  ⟨by decide, claim_C7_amended (⟨[⟨1, "u"⟩], [⟨1, 1, "Math", "g", 0⟩],
      [⟨1, 1, 1, "A", false, 10⟩, ⟨2, 1, 2, "A", false, 20⟩],
      [], 2, 2, 3, 1, 1⟩ : DB) 1 "A" 70 ⟨1, 1, "Math", "g", 0⟩ (by decide)⟩

/-- C8: mark_topic_complete is idempotent.  When the current plan of the
user contains at least one row named `name`, marking twice produces the
same store as marking once, both calls report success, and after the
first call every matching row of the current plan has completed = true
and progress = 100. -/
theorem claim_C8 (db : DB) (uid : Nat) (name : String) (plan : PlanRow)
    (hlp : latestPlan db uid = some plan)
    (hmem : ∃ t ∈ db.topics, (t.plan_id == plan.id && t.topic == name) = true) :
    (mark_topic_complete (mark_topic_complete db uid name).1 uid name).1 =
      (mark_topic_complete db uid name).1 ∧
    (mark_topic_complete db uid name).2 = true ∧
    (mark_topic_complete (mark_topic_complete db uid name).1 uid name).2 = true ∧
    ∀ t ∈ (mark_topic_complete db uid name).1.topics,
      (t.plan_id == plan.id && t.topic == name) = true →
      t.completed = true ∧ t.progress = 100 := by
  have hmarkEq : ∀ db2 : DB, latestPlan db2 uid = some plan →
      (mark_topic_complete db2 uid name).1 =
      { db2 with topics := db2.topics.map (fun t =>
          if t.plan_id == plan.id && t.topic == name then
            { t with completed := true, progress := 100 } else t) } := by
    intro db2 h2
    unfold mark_topic_complete
    rw [h2]
  have hlp2 : latestPlan (mark_topic_complete db uid name).1 uid = some plan := by
    rw [hmarkEq db hlp]
    exact hlp
  have hmem2 : ∃ t ∈ (mark_topic_complete db uid name).1.topics,
      (t.plan_id == plan.id && t.topic == name) = true := by
    obtain ⟨t, ht, hp⟩ := hmem
    refine ⟨if t.plan_id == plan.id && t.topic == name then
        { t with completed := true, progress := 100 } else t, ?_, ?_⟩
    · rw [hmarkEq db hlp]
      exact List.mem_map_of_mem _ ht
    · rw [if_pos hp]
      exact hp
  have hboolGen : ∀ db2 : DB, latestPlan db2 uid = some plan →
      (∃ t ∈ db2.topics, (t.plan_id == plan.id && t.topic == name) = true) →
      (mark_topic_complete db2 uid name).2 = true := by
    intro db2 h2 hm
    unfold mark_topic_complete
    rw [h2]
    simp only []
    exact (filter_length_pos_iff _ _).mpr hm
  refine ⟨?_, hboolGen db hlp hmem, hboolGen _ hlp2 hmem2, ?_⟩
  · rw [hmarkEq _ hlp2, hmarkEq _ hlp]
    simp only []
    congr 1
    rw [List.map_map]
    apply List.map_congr_left
    intro t _
    by_cases h : (t.plan_id == plan.id && t.topic == name) = true
    · simp [Function.comp, h]
    · simp [Function.comp, h]
  · intro t ht hp
    rw [hmarkEq db hlp] at ht
    obtain ⟨s, hs, rfl⟩ := List.mem_map.mp ht
    by_cases h : (s.plan_id == plan.id && s.topic == name) = true
    · rw [if_pos h]
      exact ⟨rfl, rfl⟩
    · rw [if_neg h] at hp
      exact absurd hp h

/-- Witness for C8 on a one-topic plan. -/
theorem claim_C8_witness :
    latestPlan (⟨[⟨1, "u"⟩], [⟨1, 1, "Math", "g", 0⟩], [⟨1, 1, 1, "A", false, 10⟩],
        [], 2, 2, 2, 1, 1⟩ : DB) 1 = some ⟨1, 1, "Math", "g", 0⟩ ∧
    (∃ t ∈ (⟨[⟨1, "u"⟩], [⟨1, 1, "Math", "g", 0⟩], [⟨1, 1, 1, "A", false, 10⟩],
        [], 2, 2, 2, 1, 1⟩ : DB).topics,
      (t.plan_id == (⟨1, 1, "Math", "g", 0⟩ : PlanRow).id && t.topic == "A") = true) ∧
    ((mark_topic_complete (mark_topic_complete (⟨[⟨1, "u"⟩], [⟨1, 1, "Math", "g", 0⟩],
          [⟨1, 1, 1, "A", false, 10⟩], [], 2, 2, 2, 1, 1⟩ : DB) 1 "A").1 1 "A").1 =
        (mark_topic_complete (⟨[⟨1, "u"⟩], [⟨1, 1, "Math", "g", 0⟩],
          [⟨1, 1, 1, "A", false, 10⟩], [], 2, 2, 2, 1, 1⟩ : DB) 1 "A").1 ∧
      (mark_topic_complete (⟨[⟨1, "u"⟩], [⟨1, 1, "Math", "g", 0⟩],
          [⟨1, 1, 1, "A", false, 10⟩], [], 2, 2, 2, 1, 1⟩ : DB) 1 "A").2 = true ∧
      (mark_topic_complete (mark_topic_complete (⟨[⟨1, "u"⟩], [⟨1, 1, "Math", "g", 0⟩],
          [⟨1, 1, 1, "A", false, 10⟩], [], 2, 2, 2, 1, 1⟩ : DB) 1 "A").1 1 "A").2 = true ∧
      ∀ t ∈ (mark_topic_complete (⟨[⟨1, "u"⟩], [⟨1, 1, "Math", "g", 0⟩],
          [⟨1, 1, 1, "A", false, 10⟩], [], 2, 2, 2, 1, 1⟩ : DB) 1 "A").1.topics,
        (t.plan_id == (⟨1, 1, "Math", "g", 0⟩ : PlanRow).id && t.topic == "A") = true →
        t.completed = true ∧ t.progress = 100) :=
  ⟨by decide, by decide,
    claim_C8 (⟨[⟨1, "u"⟩], [⟨1, 1, "Math", "g", 0⟩], [⟨1, 1, 1, "A", false, 10⟩],
        [], 2, 2, 2, 1, 1⟩ : DB) 1 "A" ⟨1, 1, "Math", "g", 0⟩ (by decide) (by decide)⟩

/-- Under the UNIQUE constraint on usernames, a username present in the
table occupies exactly one row. -/
theorem nodup_filter_one (username : String) : ∀ l : List UserRow,
    (l.map (fun u => u.username)).Nodup →
    ∀ u ∈ l, u.username = username →
    (l.filter (fun x => x.username == username)).length = 1
  | [], _, u, hu, _ => absurd hu (List.not_mem_nil u)
  | x :: xs, hnd, u, hu, hname => by
    have hnd0 : (x.username :: xs.map (fun u => u.username)).Nodup := by simpa using hnd
    have hnd1 := List.nodup_cons.mp hnd0
    rcases List.mem_cons.mp hu with rfl | hmem
    · rw [List.filter_cons_of_pos (by simp [hname])]
      have hnil : xs.filter (fun x => x.username == username) = [] := by
        rw [List.filter_eq_nil_iff]
        intro y hy
        simp only [beq_iff_eq]
        intro he
        exact hnd1.1 (List.mem_map.mpr ⟨y, hy, by rw [he, hname]⟩)
      rw [hnil]
      rfl
    · have hxne : ¬ x.username = username := by
        intro he
        exact hnd1.1 (List.mem_map.mpr ⟨u, hmem, by rw [hname, he]⟩)
      rw [List.filter_cons_of_neg (by simp [hxne])]
      exact nodup_filter_one username xs hnd1.2 u hmem hname

theorem find?_append_none {α : Type} (p : α → Bool) :
    ∀ l1 : List α, l1.find? p = none → ∀ l2, (l1 ++ l2).find? p = l2.find? p
  | [], _, l2 => rfl
  | x :: l1, h, l2 => by
    by_cases hp : p x = true
    · rw [List.find?_cons_of_pos _ hp] at h
      exact absurd h (by simp)
    · rw [List.find?_cons_of_neg _ hp] at h
      rw [List.cons_append, List.find?_cons_of_neg _ hp]
      exact find?_append_none p l1 h l2

/-- C9: get_or_create_user is idempotent.  The second call with the same
username changes nothing and returns the same identifier, exactly one
user row carries that username afterwards, and the username column stays
duplicate-free. -/
theorem claim_C9 (db : DB) (username : String) (hwf : db.wf) :
    (get_or_create_user (get_or_create_user db username).1 username).1 =
      (get_or_create_user db username).1 ∧
    (get_or_create_user (get_or_create_user db username).1 username).2 =
      (get_or_create_user db username).2 ∧
    ((get_or_create_user db username).1.users.filter
      (fun u => u.username == username)).length = 1 ∧
    ((get_or_create_user db username).1.users.map (fun u => u.username)).Nodup := by
  have hnodup : (db.users.map (fun u => u.username)).Nodup := hwf.2.2.2.2
  cases hfind : db.users.find? (fun u => u.username == username) with
  | some u =>
    have hid : get_or_create_user db username = (db, u.id) := by
      unfold get_or_create_user
      rw [hfind]
    have hu_mem : u ∈ db.users := List.mem_of_find?_eq_some hfind
    have hu_name : u.username = username := by
      have := List.find?_some hfind
      simpa using this
    rw [hid]
    simp only []
    refine ⟨?_, ?_, ?_, hnodup⟩
    · rw [hid]
    · rw [hid]
    · exact nodup_filter_one username db.users hnodup u hu_mem hu_name
  | none =>
    have hid : get_or_create_user db username =
        ({ db with
             users := db.users ++ [⟨db.nextUserId, username⟩],
             nextUserId := db.nextUserId + 1 },
          db.nextUserId) := by
      unfold get_or_create_user
      rw [hfind]
    have hnomem : ∀ x ∈ db.users, ¬ x.username = username := by
      intro x hx
      have := List.find?_eq_none.mp hfind x hx
      simpa using this
    have hfind2 : (db.users ++ [(⟨db.nextUserId, username⟩ : UserRow)]).find?
        (fun u => u.username == username) = some ⟨db.nextUserId, username⟩ := by
      rw [find?_append_none _ _ hfind]
      simp [List.find?]
    have hid2 : get_or_create_user (get_or_create_user db username).1 username =
        ((get_or_create_user db username).1, db.nextUserId) := by
      rw [hid]
      unfold get_or_create_user
      simp only []
      rw [hfind2]
    refine ⟨?_, ?_, ?_, ?_⟩
    · rw [hid2]
    · rw [hid2, hid]
    · rw [hid]
      simp only []
      rw [List.filter_append]
      have h1 : db.users.filter (fun u => u.username == username) = [] := by
        rw [List.filter_eq_nil_iff]
        intro x hx
        simpa using hnomem x hx
      rw [h1]
      simp
    · rw [hid]
      simp only []
      rw [List.map_append]
      rw [List.nodup_append]
      refine ⟨hnodup, List.nodup_singleton _, ?_⟩
      intro a ha hb
      obtain ⟨x, hx, rfl⟩ := List.mem_map.mp ha
      have : x.username = username := by simpa using hb
      exact hnomem x hx this

/-- Witness for C9: "alice" created twice in the empty store. -/
theorem claim_C9_witness :
    emptyDB.wf ∧
    ((get_or_create_user (get_or_create_user emptyDB "alice").1 "alice").1 =
        (get_or_create_user emptyDB "alice").1 ∧
      (get_or_create_user (get_or_create_user emptyDB "alice").1 "alice").2 =
        (get_or_create_user emptyDB "alice").2 ∧
      ((get_or_create_user emptyDB "alice").1.users.filter
        (fun u => u.username == "alice")).length = 1 ∧
      ((get_or_create_user emptyDB "alice").1.users.map (fun u => u.username)).Nodup) :=
  ⟨by decide, claim_C9 emptyDB "alice" (by decide)⟩

/-- C10 (implicit): when check_quiz_answer receives a well-formed
submission whose answer matches the stored answer case-insensitively,
it reports success and writes progress min(100, 50) = 50 onto every row
of the user's most recent plan named after the matched quiz's topic —
overwriting whatever progress the row had (a completed row at 100 drops
back to 50) while leaving its completed flag untouched. -/
theorem claim_C10 (db : DB) (sub username p0 p1 ans topic : String) (plan : PlanRow)
    (hsplit : pySplit sub ", Answer: " = [p0, p1])
    (hscan : scanQuizzes (pyReplace p0 "Question: " "")
      (get_quizzes (get_or_create_user db username).1
        (get_or_create_user db username).2 none) = some (ans, topic))
    (hans : pyLower p1 = pyLower ans)
    (htopic : topic ≠ "")
    (hlp : latestPlan (get_or_create_user db username).1
      (get_or_create_user db username).2 = some plan) :
    check_quiz_answer db sub username =
      ("Great job! \x27" ++ p1 ++ "\x27 is correct!",
        { (get_or_create_user db username).1 with
            topics := (get_or_create_user db username).1.topics.map (fun t =>
              if t.plan_id == plan.id && t.topic == topic then
                { t with progress := min 100 50 } else t) }) ∧
    (min 100 50 : Int) = 50 ∧
    (check_quiz_answer db sub username).2.topics =
      (get_or_create_user db username).1.topics.map (fun t =>
        if t.plan_id == plan.id && t.topic == topic then
          { t with progress := 50 } else t) := by
  have hmin : (min 100 50 : Int) = 50 := by decide
  have h1 : check_quiz_answer db sub username =
      ("Great job! \x27" ++ p1 ++ "\x27 is correct!",
        { (get_or_create_user db username).1 with
            topics := (get_or_create_user db username).1.topics.map (fun t =>
              if t.plan_id == plan.id && t.topic == topic then
                { t with progress := min 100 50 } else t) }) := by
    unfold check_quiz_answer
    rw [hsplit]
    simp only []
    rw [hscan]
    simp only []
    rw [if_pos hans, if_neg htopic]
    unfold update_topic_progress
    rw [hlp]
  refine ⟨h1, hmin, ?_⟩
  rw [h1]
  simp only [hmin]

/-- Witness for C10: the topic "Algebra" is completed at progress 100;
a correct case-insensitive answer drags its progress back to 50 while
completed stays true. -/
theorem claim_C10_witness :
    pySplit "Question: Q7?, Answer: yes" ", Answer: " = ["Question: Q7?", "yes"] ∧
    scanQuizzes (pyReplace "Question: Q7?" "Question: " "")
      (get_quizzes (get_or_create_user (⟨[⟨1, "alice"⟩], [⟨1, 1, "Math", "g", 0⟩],
          [⟨1, 1, 1, "Algebra", true, 100⟩],
          [⟨1, 1, "Algebra", jsonDumps (questionsToJson [⟨"Q7?", ["Yes", "No"], "Yes"⟩]), 1⟩],
          2, 2, 2, 2, 2⟩ : DB) "alice").1
        (get_or_create_user (⟨[⟨1, "alice"⟩], [⟨1, 1, "Math", "g", 0⟩],
          [⟨1, 1, 1, "Algebra", true, 100⟩],
          [⟨1, 1, "Algebra", jsonDumps (questionsToJson [⟨"Q7?", ["Yes", "No"], "Yes"⟩]), 1⟩],
          2, 2, 2, 2, 2⟩ : DB) "alice").2 none) = some ("Yes", "Algebra") ∧
    pyLower "yes" = pyLower "Yes" ∧
    "Algebra" ≠ "" ∧
    latestPlan (get_or_create_user (⟨[⟨1, "alice"⟩], [⟨1, 1, "Math", "g", 0⟩],
        [⟨1, 1, 1, "Algebra", true, 100⟩],
        [⟨1, 1, "Algebra", jsonDumps (questionsToJson [⟨"Q7?", ["Yes", "No"], "Yes"⟩]), 1⟩],
        2, 2, 2, 2, 2⟩ : DB) "alice").1
      (get_or_create_user (⟨[⟨1, "alice"⟩], [⟨1, 1, "Math", "g", 0⟩],
        [⟨1, 1, 1, "Algebra", true, 100⟩],
        [⟨1, 1, "Algebra", jsonDumps (questionsToJson [⟨"Q7?", ["Yes", "No"], "Yes"⟩]), 1⟩],
        2, 2, 2, 2, 2⟩ : DB) "alice").2 = some ⟨1, 1, "Math", "g", 0⟩ ∧
    (check_quiz_answer (⟨[⟨1, "alice"⟩], [⟨1, 1, "Math", "g", 0⟩],
        [⟨1, 1, 1, "Algebra", true, 100⟩],
        [⟨1, 1, "Algebra", jsonDumps (questionsToJson [⟨"Q7?", ["Yes", "No"], "Yes"⟩]), 1⟩],
        2, 2, 2, 2, 2⟩ : DB) "Question: Q7?, Answer: yes" "alice" =
      ("Great job! \x27" ++ "yes" ++ "\x27 is correct!",
        { (get_or_create_user (⟨[⟨1, "alice"⟩], [⟨1, 1, "Math", "g", 0⟩],
            [⟨1, 1, 1, "Algebra", true, 100⟩],
            [⟨1, 1, "Algebra", jsonDumps (questionsToJson [⟨"Q7?", ["Yes", "No"], "Yes"⟩]), 1⟩],
            2, 2, 2, 2, 2⟩ : DB) "alice").1 with
            topics := (get_or_create_user (⟨[⟨1, "alice"⟩], [⟨1, 1, "Math", "g", 0⟩],
                [⟨1, 1, 1, "Algebra", true, 100⟩],
                [⟨1, 1, "Algebra", jsonDumps (questionsToJson
                  [⟨"Q7?", ["Yes", "No"], "Yes"⟩]), 1⟩],
                2, 2, 2, 2, 2⟩ : DB) "alice").1.topics.map (fun t =>
              if t.plan_id == (⟨1, 1, "Math", "g", 0⟩ : PlanRow).id && t.topic == "Algebra" then
                { t with progress := min 100 50 } else t) }) ∧
      (min 100 50 : Int) = 50 ∧
      (check_quiz_answer (⟨[⟨1, "alice"⟩], [⟨1, 1, "Math", "g", 0⟩],
          [⟨1, 1, 1, "Algebra", true, 100⟩],
          [⟨1, 1, "Algebra", jsonDumps (questionsToJson [⟨"Q7?", ["Yes", "No"], "Yes"⟩]), 1⟩],
          2, 2, 2, 2, 2⟩ : DB) "Question: Q7?, Answer: yes" "alice").2.topics =
        (get_or_create_user (⟨[⟨1, "alice"⟩], [⟨1, 1, "Math", "g", 0⟩],
            [⟨1, 1, 1, "Algebra", true, 100⟩],
            [⟨1, 1, "Algebra", jsonDumps (questionsToJson [⟨"Q7?", ["Yes", "No"], "Yes"⟩]), 1⟩],
            2, 2, 2, 2, 2⟩ : DB) "alice").1.topics.map (fun t =>
          if t.plan_id == (⟨1, 1, "Math", "g", 0⟩ : PlanRow).id && t.topic == "Algebra" then
            { t with progress := 50 } else t)) :=
  ⟨by decide, by decide, by decide, by decide, by decide,
    claim_C10 (⟨[⟨1, "alice"⟩], [⟨1, 1, "Math", "g", 0⟩],
        [⟨1, 1, 1, "Algebra", true, 100⟩],
        [⟨1, 1, "Algebra", jsonDumps (questionsToJson [⟨"Q7?", ["Yes", "No"], "Yes"⟩]), 1⟩],
        2, 2, 2, 2, 2⟩ : DB) "Question: Q7?, Answer: yes" "alice" "Question: Q7?" "yes"
      "Yes" "Algebra" ⟨1, 1, "Math", "g", 0⟩
      (by decide) (by decide) (by decide) (by decide) (by decide)⟩
